import Mathlib

/-!
Verification of the Distpatch-PDF repository against its natural-language
specification.

The development shallowly embeds the Python sources as Lean definitions:

* `DetectionEngine` (src/core/detection_engine.py): the ordered stopover
  regex patterns, `extract_stopover_code`, `contains_objectives`,
  `is_stopover_page`.  The three regular expressions are deterministic
  (no backtracking can change the outcome), so each is embedded as a
  direct matcher over `List Char`, searched left to right exactly as
  `re.search` does.
* `ConfigManager` (src/services/config_manager.py): the in-memory
  configuration record, its mutating operations, the sanitizer, the
  load-or-migrate routine over an explicit file-system model, and the
  swallow-on-failure persistence step.
* `StopoverEmailService._encode_recipients` / `_decode_recipients`
  (src/services/stopover_email_service.py): the Cc/Bcc sidecar codec.
* `MappingService` (src/services/mapping_service.py): the facade
  operations `add_mapping` / `remove_mapping`.

Strings are modelled as `List Char` restricted to the ASCII behaviour of
Python's `str.upper`, `str.strip`, `str.isalpha` and of the regex classes
`[A-Z]` (with IGNORECASE), `\s`, `\w`; all concrete inputs used below are
ASCII.  Python dicts are insertion-ordered association lists; `d[k] = v`
updates the first occurrence in place or appends, `pop` removes.
-/

/-- Character list of a string literal (Python text is modelled as `List Char`). -/
def strOf (s : String) : List Char := s.data

/-- Python strings. -/
abbrev Str := List Char

/-- Python `\s` / `str.strip` whitespace, ASCII range. -/
def pySpace (c : Char) : Bool :=
  c = ' ' || c = '\t' || c = '\n' || c = '\r' || c = '\x0b' || c = '\x0c'

/-- Python `\w` word character, ASCII range. -/
def isWordChar (c : Char) : Bool := c.isAlphanum || c = '_'

/-- Python `str.strip()`: drop whitespace from both ends. -/
def pyStrip (xs : Str) : Str :=
  ((xs.dropWhile pySpace).reverse.dropWhile pySpace).reverse

/-- Python `str.upper()`, ASCII range (`Char.toUpper` is the ASCII uppercase map). -/
def pyUpper (xs : Str) : Str := xs.map Char.toUpper

/-- Python `str.lower()`, ASCII range. -/
def pyLower (xs : Str) : Str := xs.map Char.toLower

/-- Characters produced by `Char.ofNat` of a valid code point keep their code. -/
theorem toNat_ofNat_valid (n : Nat) (h : n.isValidChar) : (Char.ofNat n).toNat = n := by
  have hlt : n < 2 ^ 32 := by
    rcases h with h | ⟨_, h2⟩ <;> omega
  simp [Char.ofNat, h, Char.ofNatAux, Char.toNat, UInt32.toNat]

/-- Code point of the ASCII uppercase map. -/
theorem toUpper_toNat (c : Char) :
    c.toUpper.toNat = if c.toNat ≥ 97 ∧ c.toNat ≤ 122 then c.toNat - 32 else c.toNat := by
  unfold Char.toUpper
  by_cases h : c.toNat ≥ 97 ∧ c.toNat ≤ 122
  · simp only [h, if_true]
    exact toNat_ofNat_valid _ (Or.inl (by omega))
  · simp only [h, if_false]

/-- Characters outside the lowercase range are fixed by `toUpper`. -/
theorem toUpper_eq_self_of_not (c : Char) (h : ¬(c.toNat ≥ 97 ∧ c.toNat ≤ 122)) :
    c.toUpper = c := by
  unfold Char.toUpper
  simp only [h, if_false]

/-- Lowercase test, phrased on code points. -/
theorem isLower_iff (c : Char) : c.isLower = true ↔ 97 ≤ c.toNat ∧ c.toNat ≤ 122 := by
  simp [Char.isLower, Char.toNat]
  exact Iff.rfl

/-- Uppercase test, phrased on code points. -/
theorem isUpper_iff (c : Char) : c.isUpper = true ↔ 65 ≤ c.toNat ∧ c.toNat ≤ 90 := by
  simp [Char.isUpper, Char.toNat]
  exact Iff.rfl

/-- Alphabetic test, phrased on code points. -/
theorem isAlpha_iff (c : Char) :
    c.isAlpha = true ↔ (65 ≤ c.toNat ∧ c.toNat ≤ 90) ∨ (97 ≤ c.toNat ∧ c.toNat ≤ 122) := by
  simp [Char.isAlpha, isUpper_iff, isLower_iff]

/-- The ASCII uppercase map is idempotent. -/
theorem toUpper_idem (c : Char) : c.toUpper.toUpper = c.toUpper := by
  by_cases h : c.toNat ≥ 97 ∧ c.toNat ≤ 122
  · apply toUpper_eq_self_of_not
    rw [toUpper_toNat, if_pos h]
    omega
  · rw [toUpper_eq_self_of_not c h, toUpper_eq_self_of_not c h]

/-- Uppercasing preserves `isalpha`. -/
theorem isAlpha_toUpper (c : Char) (h : c.isAlpha = true) : c.toUpper.isAlpha = true := by
  rw [isAlpha_iff] at *
  rw [toUpper_toNat]
  split <;> omega

/-- Python `str.upper` is idempotent on strings. -/
theorem pyUpper_idem (s : Str) : pyUpper (pyUpper s) = pyUpper s := by
  simp [pyUpper, Function.comp]
  intro c _
  exact toUpper_idem c

namespace DetectionEngine

/-- Greedy `\s*` followed by a non-space requirement: skip the maximal
whitespace run (the continuation characters `-` and `B`/`b` are never
whitespace, so no backtracking can occur). -/
def dropSpaces : Str → Str
  | [] => []
  | c :: cs => if pySpace c then dropSpaces cs else c :: cs

/-- Case-insensitive literal `Bilan` (IGNORECASE), returning the remainder. -/
def matchBilan : Str → Option Str
  | b :: i :: l :: a :: n :: rest =>
    if b.toLower = 'B'.toLower && i.toLower = 'i' && l.toLower = 'l' &&
       a.toLower = 'a' && n.toLower = 'n' then some rest else none
  | _ => none

/-- A `\b` after a word character: end of text or a non-word character. -/
def noWordAfter : Str → Bool
  | [] => true
  | c :: _ => !isWordChar c

/-- A `\b` before a word character: start of text or a non-word character before. -/
def boundaryBefore : Option Char → Bool
  | none => true
  | some p => !isWordChar p

/-- Continuation of pattern 1 after the captured group: `\s*-\s*Bilan\b`. -/
def tailP1 (cs : Str) : Bool :=
  match dropSpaces cs with
  | '-' :: rest =>
    match matchBilan (dropSpaces rest) with
    | some rest2 => noWordAfter rest2
    | none => false
  | _ => false

/-- Attempt of `\b([A-Z]{3})\s*-\s*Bilan\b` (IGNORECASE) at the current
position; `prev` is the character just before it.  Returns the group. -/
def matchP1At (prev : Option Char) : Str → Option Str
  | a :: b :: c :: rest =>
    if boundaryBefore prev && a.isAlpha && b.isAlpha && c.isAlpha && tailP1 rest then
      some [a, b, c]
    else none
  | _ => none

/-- Attempt of `\[([A-Z]{3})\]-Bilan\b` (IGNORECASE) at the current position. -/
def matchP2At : Str → Option Str
  | l :: a :: b :: c :: r :: d :: rest =>
    if l = '[' && r = ']' && d = '-' && a.isAlpha && b.isAlpha && c.isAlpha then
      match matchBilan rest with
      | some rest2 => if noWordAfter rest2 then some [a, b, c] else none
      | none => none
    else none
  | _ => none

/-- Attempt of `([A-Z]{3})-Bilan\b` (IGNORECASE) at the current position. -/
def matchP3At : Str → Option Str
  | a :: b :: c :: d :: rest =>
    if d = '-' && a.isAlpha && b.isAlpha && c.isAlpha then
      match matchBilan rest with
      | some rest2 => if noWordAfter rest2 then some [a, b, c] else none
      | none => none
    else none
  | _ => none

/-- `re.search` for pattern 1: try every start position left to right. -/
def searchP1 (prev : Option Char) : Str → Option Str
  | [] => none
  | c :: cs =>
    match matchP1At prev (c :: cs) with
    | some g => some g
    | none => searchP1 (some c) cs

/-- `re.search` for pattern 2. -/
def searchP2 : Str → Option Str
  | [] => none
  | c :: cs =>
    match matchP2At (c :: cs) with
    | some g => some g
    | none => searchP2 cs

/-- `re.search` for pattern 3. -/
def searchP3 : Str → Option Str
  | [] => none
  | c :: cs =>
    match matchP3At (c :: cs) with
    | some g => some g
    | none => searchP3 cs

/-- The consolidated pattern list, in the order of `STOPOVER_PATTERNS`. -/
def STOPOVER_PATTERNS : List (Str → Option Str) :=
  [searchP1 none, searchP2, searchP3]

/-- The `for pattern in cls.STOPOVER_PATTERNS` loop body of
`extract_stopover_code`: first match wins; on a match the group is
uppercased and returned if it is three alphabetic characters, otherwise
the loop continues with the next pattern. -/
def tryPatterns : List (Str → Option Str) → Str → Option Str
  | [], _ => none
  | p :: ps, text =>
    match p text with
    | some g =>
      let code := pyUpper g
      if code.length = 3 && code.all Char.isAlpha then some code else tryPatterns ps text
    | none => tryPatterns ps text

/-- `DetectionEngine.extract_stopover_code`. -/
def extract_stopover_code (text : Str) : Option Str :=
  if text.isEmpty then none else tryPatterns STOPOVER_PATTERNS text

/-- Substring search for a literal pattern, trying each start left to right. -/
def searchLit (pat : Str) : Str → Bool
  | [] => pat.isPrefixOf []
  | c :: cs => pat.isPrefixOf (c :: cs) || searchLit pat cs

/-- `DetectionEngine.contains_objectives`: `re.search("objectifs", IGNORECASE)`. -/
def contains_objectives (text : Str) : Bool :=
  if text.isEmpty then false else searchLit (strOf "objectifs") (pyLower text)

/-- `DetectionEngine.is_stopover_page`. -/
def is_stopover_page (text : Str) : Bool :=
  (extract_stopover_code text).isSome && contains_objectives text

end DetectionEngine

namespace StopoverEmailService

/-- Sentinel tag `"__CC__:"` (`StopoverEmailService._CC_TAG`). -/
def CC_TAG : Str := ['_', '_', 'C', 'C', '_', '_', ':']

/-- Sentinel tag `"__BCC__:"` (`StopoverEmailService._BCC_TAG`). -/
def BCC_TAG : Str := ['_', '_', 'B', 'C', 'C', '_', '_', ':']

/-- `StopoverEmailService._encode_recipients`: strip each address, drop the
empty ones, keep To entries plain and tag Cc/Bcc entries. -/
def encode_recipients (to_list cc_list bcc_list : List Str) : List Str :=
  to_list.filterMap (fun e => let s := pyStrip e; if s = [] then none else some s) ++
  cc_list.filterMap (fun e => let s := pyStrip e; if s = [] then none else some (CC_TAG ++ s)) ++
  bcc_list.filterMap (fun e => let s := pyStrip e; if s = [] then none else some (BCC_TAG ++ s))

/-- `StopoverEmailService._decode_recipients`: scan left to right, strip each
entry, skip empties, split tagged entries back into the Cc/Bcc buckets. -/
def decode_recipients : List Str → List Str × List Str × List Str
  | [] => ([], [], [])
  | raw :: rest =>
    let s := pyStrip raw
    let r := decode_recipients rest
    if s = [] then r
    else if CC_TAG.isPrefixOf s then
      let cc := pyStrip (s.drop CC_TAG.length)
      if cc = [] then r else (r.1, cc :: r.2.1, r.2.2)
    else if BCC_TAG.isPrefixOf s then
      let bcc := pyStrip (s.drop BCC_TAG.length)
      if bcc = [] then r else (r.1, r.2.1, bcc :: r.2.2)
    else (s :: r.1, r.2.1, r.2.2)

end StopoverEmailService

/-! Python dicts as insertion-ordered association lists. -/

/-- Python `d.get(k)`: value at the first (unique, for real dicts) occurrence. -/
def dget {V : Type} : List (Str × V) → Str → Option V
  | [], _ => none
  | (k', v) :: rest, k => if k' = k then some v else dget rest k

/-- Python `d.get(k, dflt)`. -/
def dgetD {V : Type} (d : List (Str × V)) (k : Str) (dflt : V) : V :=
  match dget d k with
  | some v => v
  | none => dflt

/-- Python `d[k] = v`: update in place keeping the position, else append. -/
def dset {V : Type} : List (Str × V) → Str → V → List (Str × V)
  | [], k, v => [(k, v)]
  | (k', v') :: rest, k, v =>
    if k' = k then (k', v) :: rest else (k', v') :: dset rest k v

/-- Python `d.pop(k, None)`: drop the entry for `k`. -/
def dpop {V : Type} : List (Str × V) → Str → List (Str × V)
  | [], _ => []
  | (k', v') :: rest, k => if k' = k then rest else (k', v') :: dpop rest k

/-- Python `list(d.keys())`. -/
def keys {V : Type} : List (Str × V) → List Str
  | [] => []
  | kv :: rest => kv.1 :: keys rest

/-- Python `lst.remove(x)`: drop the first occurrence. -/
def listRemove (x : Str) : List Str → List Str
  | [] => []
  | y :: ys => if y = x then ys else y :: listRemove x ys

/-- The in-memory configuration held by `ConfigManager` (`self._config`),
with the shape produced by `_default_config`. -/
structure Config where
  version : Int
  stopovers : List Str
  mappings : List (Str × List Str)
  templates : Str × Str
  last_sent : List (Str × Str)
deriving DecidableEq, Repr

namespace ConfigManager

/-- `ConfigManager._default_config`. -/
def default_config : Config :=
  { version := 1, stopovers := [], mappings := [], templates := ([], []), last_sent := [] }

/-- `ConfigManager.get_stopovers`. -/
def get_stopovers (c : Config) : List Str := c.stopovers

/-- `ConfigManager.get_mappings` (the deep copy is identity on values). -/
def get_mappings (c : Config) : List (Str × List Str) := c.mappings

/-- `ConfigManager.get_last_sent`. -/
def get_last_sent (c : Config) : List (Str × Str) := c.last_sent

/-- `ConfigManager.set_stopovers`: replace with the uppercased codes and keep
only the mapping / last-sent entries whose uppercased key is in the new list
(dict comprehensions over the old entries, re-keyed by uppercase). -/
def set_stopovers (stopovers : List Str) (c : Config) : Config :=
  let desired := stopovers.map pyUpper
  { c with
    stopovers := desired
    mappings :=
      c.mappings.foldl
        (fun acc kv => if pyUpper kv.1 ∈ desired then dset acc (pyUpper kv.1) kv.2 else acc) []
    last_sent :=
      c.last_sent.foldl
        (fun acc kv => if pyUpper kv.1 ∈ desired then dset acc (pyUpper kv.1) kv.2 else acc) [] }

/-- `ConfigManager.add_stopover`: append the code verbatim when absent. -/
def add_stopover (stopover : Str) (c : Config) : Config :=
  if stopover ∈ c.stopovers then c
  else { c with stopovers := c.stopovers ++ [stopover] }

/-- `ConfigManager.remove_stopover`: drop the code verbatim from the list and
drop its (verbatim) mapping and last-sent entries. -/
def remove_stopover (stopover : Str) (c : Config) : Config :=
  let lst := if stopover ∈ c.stopovers then listRemove stopover c.stopovers else c.stopovers
  let maps := if stopover ∈ keys c.mappings then dpop c.mappings stopover else c.mappings
  let last := if stopover ∈ keys c.last_sent then dpop c.last_sent stopover else c.last_sent
  { c with stopovers := lst, mappings := maps, last_sent := last }

/-- `ConfigManager.set_mapping`: store the list verbatim under the uppercased
code and append the code to `stopovers` when absent. -/
def set_mapping (stopover : Str) (emails : List Str) (c : Config) : Config :=
  let s := pyUpper stopover
  let maps := dset c.mappings s emails
  let lst := if s ∈ c.stopovers then c.stopovers else c.stopovers ++ [s]
  { c with mappings := maps, stopovers := lst }

/-- `ConfigManager.remove_mapping`: drop the (verbatim) key when present. -/
def remove_mapping (stopover : Str) (c : Config) : Config :=
  if stopover ∈ keys c.mappings then { c with mappings := dpop c.mappings stopover } else c

/-- `ConfigManager.set_templates`. -/
def set_templates (subject body : Str) (c : Config) : Config :=
  { c with templates := (subject, body) }

/-- `ConfigManager.set_last_sent`: uppercases the code; uses the given
timestamp when it is a non-empty string, else the current clock (`now`). -/
def set_last_sent (now : Str) (stopover : Str) (iso_ts : Option Str) (c : Config) : Config :=
  let s := pyUpper stopover
  let ts := match iso_ts with
    | some t => if t = [] then now else t
    | none => now
  { c with last_sent := dset c.last_sent s ts }

/-- `ConfigManager.clear_last_sent`: drop the (verbatim) key when present. -/
def clear_last_sent (stopover : Str) (c : Config) : Config :=
  if stopover ∈ keys c.last_sent then { c with last_sent := dpop c.last_sent stopover } else c

/-- Outcome of one attempt to write the unified file to disk. -/
inductive DiskOutcome where
  | ok
  | failure
deriving DecidableEq, Repr

/-- `_atomic_write_json`: may raise on disk failure. -/
def atomic_write_json : DiskOutcome → Except Unit Unit
  | .ok => .ok ()
  | .failure => .error ()

/-- `ConfigManager._save`: the write is wrapped in `try/except: pass`, so a
disk failure is swallowed and nothing is raised. -/
def save (d : DiskOutcome) : Except Unit Unit :=
  match atomic_write_json d with
  | .ok _ => .ok ()
  | .error _ => .ok ()

/-- `set_stopovers` as executed: mutate in memory, then `_save`. -/
def set_stopovers_run (d : DiskOutcome) (stopovers : List Str) (c : Config) :
    Except Unit Config :=
  let c' := set_stopovers stopovers c
  match save d with
  | .ok _ => .ok c'
  | .error e => .error e

/-- `add_stopover` as executed (`_save` runs only when the list changed). -/
def add_stopover_run (d : DiskOutcome) (stopover : Str) (c : Config) : Except Unit Config :=
  if stopover ∈ c.stopovers then .ok c
  else
    let c' := add_stopover stopover c
    match save d with
    | .ok _ => .ok c'
    | .error e => .error e

/-- `remove_stopover` as executed. -/
def remove_stopover_run (d : DiskOutcome) (stopover : Str) (c : Config) : Except Unit Config :=
  let c' := remove_stopover stopover c
  match save d with
  | .ok _ => .ok c'
  | .error e => .error e

/-- `set_mapping` as executed. -/
def set_mapping_run (d : DiskOutcome) (stopover : Str) (emails : List Str) (c : Config) :
    Except Unit Config :=
  let c' := set_mapping stopover emails c
  match save d with
  | .ok _ => .ok c'
  | .error e => .error e

/-- `remove_mapping` as executed (`_save` runs only when the key was present). -/
def remove_mapping_run (d : DiskOutcome) (stopover : Str) (c : Config) : Except Unit Config :=
  if stopover ∈ keys c.mappings then
    let c' := remove_mapping stopover c
    match save d with
    | .ok _ => .ok c'
    | .error e => .error e
  else .ok c

/-- `set_templates` as executed. -/
def set_templates_run (d : DiskOutcome) (subject body : Str) (c : Config) : Except Unit Config :=
  let c' := set_templates subject body c
  match save d with
  | .ok _ => .ok c'
  | .error e => .error e

/-- `set_last_sent` as executed. -/
def set_last_sent_run (d : DiskOutcome) (now stopover : Str) (iso_ts : Option Str)
    (c : Config) : Except Unit Config :=
  let c' := set_last_sent now stopover iso_ts c
  match save d with
  | .ok _ => .ok c'
  | .error e => .error e

/-- `clear_last_sent` as executed (`_save` runs only when the key was present). -/
def clear_last_sent_run (d : DiskOutcome) (stopover : Str) (c : Config) : Except Unit Config :=
  if stopover ∈ keys c.last_sent then
    let c' := clear_last_sent stopover c
    match save d with
    | .ok _ => .ok c'
    | .error e => .error e
  else .ok c

end ConfigManager

namespace MappingService

open ConfigManager

/-- `MappingService.add_mapping`: uppercase the code, strip the address, and
append it only when non-empty and not already mapped; returns whether a
change was made. -/
def add_mapping (stopover_code email : Str) (c : Config) : Config × Bool :=
  let code := pyUpper stopover_code
  let em := pyStrip email
  let current := dgetD (get_mappings c) code []
  if em ≠ [] ∧ em ∉ current then
    ((add_stopover code (set_mapping code (current ++ [em]) c)), true)
  else (c, false)

/-- `MappingService.remove_mapping`: remove the stripped address; delete the
whole entry when the filtered list is empty; returns whether the pair was
present. -/
def remove_mapping (stopover_code email : Str) (c : Config) : Config × Bool :=
  let code := pyUpper stopover_code
  let em := pyStrip email
  let maps := get_mappings c
  if code ∈ keys maps ∧ em ∈ dgetD maps code [] then
    let new_list := (dgetD maps code []).filter (fun e => e ≠ em)
    if new_list ≠ [] then (set_mapping code new_list c, true)
    else (ConfigManager.remove_mapping code c, true)
  else (c, false)

/-- A call into the `MappingService` facade. -/
inductive MsOp where
  | add (code email : Str)
  | remove (code email : Str)

/-- State reached after one facade call (the returned flag is dropped). -/
def applyOp (c : Config) : MsOp → Config
  | .add code email => (add_mapping code email c).1
  | .remove code email => (remove_mapping code email c).1

/-- State reached after a sequence of facade calls. -/
def applyOps (ops : List MsOp) (c : Config) : Config := ops.foldl applyOp c

end MappingService

/-! JSON values (floats are not needed by any claim and are omitted);
object entries keep file order, duplicate keys resolve through `dset` as in
Python's `json.load`. -/

inductive Json where
  | null
  | bool (b : Bool)
  | num (n : Int)
  | str (s : Str)
  | arr (xs : List Json)
  | obj (kvs : List (Str × Json))

/-- Numeric value of a digit string (`None` when not all digits or empty). -/
def digitsVal (ds : Str) : Option Nat :=
  if ds.isEmpty || !ds.all Char.isDigit then none
  else some (ds.foldl (fun n c => n * 10 + (c.toNat - 48)) 0)

/-- Python `int(x)` on a JSON-loaded value: ints and bools convert, strings
parse as an optionally signed integer with surrounding whitespace, and
everything else raises (`none`). -/
def pyInt : Json → Option Int
  | .num n => some n
  | .bool b => some (if b then 1 else 0)
  | .str s =>
    let t := pyStrip s
    match t with
    | '+' :: rest => (digitsVal rest).map Int.ofNat
    | '-' :: rest => (digitsVal rest).map (fun n => -(n : Int))
    | _ => (digitsVal t).map Int.ofNat
  | _ => none

/-- Python `isinstance(x, (str, int))` on a JSON-loaded value (`bool` is a
subclass of `int`). -/
def strOrIntB : Json → Bool
  | .str _ => true
  | .num _ => true
  | .bool _ => true
  | _ => false

/-- Python `str(x)` for the values accepted by `strOrIntB`. -/
def pyStr : Json → Str
  | .str s => s
  | .num n => strOf (toString n)
  | .bool b => if b then strOf "True" else strOf "False"
  | _ => []

/-- Python truthiness of a JSON-loaded value (`if not data: ...`). -/
def jsonTruthy : Json → Bool
  | .null => false
  | .bool b => b
  | .num n => n ≠ 0
  | .str s => s ≠ []
  | .arr xs => !xs.isEmpty
  | .obj kvs => !kvs.isEmpty

/-- Conversion used by `[str(x) for x in v if isinstance(x, (str, int))]`. -/
def strListOfJson (v : List Json) : List Str :=
  v.filterMap (fun x => if strOrIntB x then some (pyStr x) else none)

/-- Value branch of the mapping sanitizer: a list keeps its str/int members,
a string becomes a singleton, anything else becomes the empty list. -/
def emailsOfJson : Json → List Str
  | .arr v => strListOfJson v
  | .str s => [s]
  | _ => []

namespace ConfigManager

/-- `ConfigManager._sanitize_loaded_config` on a parsed JSON object.  The
only raising step is `int(cfg.get("version", 1))`; a raise is `none` (the
caller's `try` then falls back to migration). -/
def sanitize_loaded_config (cfg : List (Str × Json)) : Option Config :=
  match pyInt (match dget cfg (strOf "version") with | some j => j | none => Json.num 1) with
  | none => none
  | some ver =>
    let stopovers :=
      match dget cfg (strOf "stopovers") with
      | some (Json.arr xs) => strListOfJson xs
      | _ => []
    let mappings :=
      match dget cfg (strOf "mappings") with
      | some (Json.obj kvs) =>
        kvs.foldl (fun acc kv => dset acc kv.1 (emailsOfJson kv.2)) []
      | _ => []
    let templates :=
      match dget cfg (strOf "templates") with
      | some (Json.obj t) =>
        let sub := match dget t (strOf "subject") with | some j => j | none => Json.str []
        let bod := match dget t (strOf "body") with | some j => j | none => Json.str []
        ((if strOrIntB sub then pyStr sub else []), (if strOrIntB bod then pyStr bod else []))
      | _ => ([], [])
    let last :=
      match dget cfg (strOf "last_sent") with
      | some (Json.obj kvs) =>
        kvs.foldl (fun acc kv => match kv.2 with | Json.str v => dset acc kv.1 v | _ => acc) []
      | _ => []
    some { version := ver, stopovers := stopovers, mappings := mappings,
           templates := templates, last_sent := last }

end ConfigManager

/-- JSON image of the in-memory configuration, as `json.dump` writes it
(the key order of `_default_config`). -/
def Config.toJson (c : Config) : List (Str × Json) :=
  [ (strOf "version", Json.num c.version),
    (strOf "stopovers", Json.arr (c.stopovers.map Json.str)),
    (strOf "mappings",
      Json.obj (c.mappings.map (fun kv => (kv.1, Json.arr (kv.2.map Json.str))))),
    (strOf "templates",
      Json.obj [(strOf "subject", Json.str c.templates.1), (strOf "body", Json.str c.templates.2)]),
    (strOf "last_sent", Json.obj (c.last_sent.map (fun kv => (kv.1, Json.str kv.2)))) ]

/-- File-system model for `_load_or_migrate`: the unified file and the legacy
fragments.  `none`: absent; for the unified file `some none`: present but
`json.load` raises; `some (some j)`: parses to `j`.  Legacy fragments are the
result of `_read_json_safely` / `_read_text_safely` (absent or unreadable
collapse to `none`). -/
structure FS where
  app_config : Option (Option Json)
  legacy_stopover_emails_pkg : Option Json
  legacy_stopover_emails_root : Option Json
  legacy_mappings_pkg : Option Json
  legacy_mappings_root : Option Json
  legacy_templates_pkg : Option Json
  legacy_templates_root : Option Json
  legacy_email_template_txt : Option Str
  legacy_config_pkg : Option Json
  legacy_config_root : Option Json

namespace ConfigManager

/-- `ConfigManager._read_legacy_mappings` over the candidate files, in the
order of `legacy_mapping_files`; accumulates `mappings`, replaces
`stopovers`. -/
def read_legacy_mappings (files : List (Option Json)) :
    List (Str × List Str) × List Str :=
  files.foldl
    (fun acc data =>
      match data with
      | none => acc
      | some j =>
        if !jsonTruthy j then acc
        else
          match j with
          | Json.obj kvs =>
            if kvs.all (fun kv => match kv.2 with | Json.arr _ => true | _ => false) then
              (kvs.foldl
                (fun m kv =>
                  match kv.2 with
                  | Json.arr v => dset m kv.1 (strListOfJson v)
                  | _ => m) acc.1, acc.2)
            else
              let m1 :=
                match dget kvs (strOf "mappings") with
                | some (Json.obj mkvs) =>
                  mkvs.foldl (fun m kv => dset m kv.1 (emailsOfJson kv.2)) acc.1
                | _ => acc.1
              let st :=
                match dget kvs (strOf "stopovers") with
                | some (Json.arr xs) => strListOfJson xs
                | _ => acc.2
              (m1, st)
          | _ => acc)
    ([], [])

/-- `ConfigManager._read_legacy_templates`, JSON part: first file providing a
subject or a body wins. -/
def read_legacy_templates_json : List (Option Json) → Option Str × Option Str
  | [] => (none, none)
  | data :: rest =>
    match data with
    | some j =>
      if jsonTruthy j then
        match j with
        | Json.obj kvs =>
          let subject :=
            match dget kvs (strOf "subject") with
            | some x => if strOrIntB x then some (pyStr x) else none
            | none => none
          let body :=
            match dget kvs (strOf "body") with
            | some x => if strOrIntB x then some (pyStr x) else none
            | none => none
          if subject.isSome || body.isSome then (subject, body)
          else read_legacy_templates_json rest
        | _ => read_legacy_templates_json rest
      else read_legacy_templates_json rest
    | none => read_legacy_templates_json rest

/-- `ConfigManager._read_legacy_templates`: JSON candidates, then the text
file as body fallback, then empty-string defaults. -/
def read_legacy_templates (json_candidates : List (Option Json)) (txt : Option Str) :
    Str × Str :=
  let sb := read_legacy_templates_json json_candidates
  let body :=
    match sb.2 with
    | some b => some b
    | none =>
      match txt with
      | some t => if t = [] then none else some t
      | none => none
  (sb.1.getD [], body.getD [])

/-- `ConfigManager._read_legacy_last_sent`. -/
def read_legacy_last_sent (candidates : List (Option Json)) : List (Str × Str) :=
  candidates.foldl
    (fun acc data =>
      match data with
      | none => acc
      | some j =>
        if !jsonTruthy j then acc
        else
          match j with
          | Json.obj kvs =>
            match dget kvs (strOf "last_sent") with
            | some (Json.obj ls) =>
              ls.foldl
                (fun a kv => match kv.2 with | Json.str v => dset a kv.1 v | _ => a) acc
            | _ => acc
          | _ => acc)
    []

/-- Result of `_load_or_migrate`: the configuration now in memory, whether
any legacy fragment path was consulted, and the file system afterwards. -/
structure LoadResult where
  config : Config
  legacyAccess : Bool
  fs : FS

/-- The `migrated` dict assembled by the migration branch of
`_load_or_migrate` from the legacy fragments. -/
def migrated_config (fs : FS) : Config :=
  let ms := read_legacy_mappings
    [fs.legacy_stopover_emails_pkg, fs.legacy_stopover_emails_root,
     fs.legacy_mappings_pkg, fs.legacy_mappings_root]
  let tpl := read_legacy_templates [fs.legacy_templates_pkg, fs.legacy_templates_root]
    fs.legacy_email_template_txt
  let last := read_legacy_last_sent [fs.legacy_config_pkg, fs.legacy_config_root]
  { version := 1
    stopovers := if ms.2 = [] then keys ms.1 else ms.2
    mappings := ms.1
    templates := tpl
    last_sent := last }

/-- The configuration the migration branch leaves in memory:
`self._config = self._sanitize_loaded_config(migrated)` (the `none` arm is
unreachable, since the migrated dict carries the integer literal 1 as
version). -/
def migrate_result_config (fs : FS) : Config :=
  match sanitize_loaded_config (Config.toJson (migrated_config fs)) with
  | some c => c
  | none => migrated_config fs

/-- Migration branch of `_load_or_migrate`: read the legacy fragments, build
the migrated dict, sanitize it, save it (failure swallowed), then delete the
legacy fragments (best effort). -/
def migrate (d : DiskOutcome) (fs : FS) : LoadResult :=
  let cfg := migrate_result_config fs
  let fs1 :=
    match d with
    | .ok => { fs with app_config := some (some (Json.obj (Config.toJson cfg))) }
    | .failure => fs
  { config := cfg
    legacyAccess := true
    fs := { fs1 with
            legacy_stopover_emails_pkg := none, legacy_stopover_emails_root := none,
            legacy_mappings_pkg := none, legacy_mappings_root := none,
            legacy_templates_pkg := none, legacy_templates_root := none,
            legacy_email_template_txt := none,
            legacy_config_pkg := none, legacy_config_root := none } }

/-- `ConfigManager._load_or_migrate`: use the unified file when it exists,
parses to a dict and sanitizes without raising; otherwise migrate.  The
`isinstance(data, dict)` failure and any exception both fall through to
migration. -/
def load_or_migrate (d : DiskOutcome) (fs : FS) : LoadResult :=
  match fs.app_config with
  | some (some (Json.obj kvs)) =>
    match sanitize_loaded_config kvs with
    | some c => { config := c, legacyAccess := false, fs := fs }
    | none => migrate d fs
  | some (some _) => migrate d fs
  | some none => migrate d fs
  | none => migrate d fs

end ConfigManager

/-! Laws of the dict model. -/

theorem dget_dset {V : Type} (d : List (Str × V)) (k : Str) (v : V) (k' : Str) :
    dget (dset d k v) k' = if k = k' then some v else dget d k' := by
  induction d with
  | nil => rfl
  | cons kv rest ih =>
    obtain ⟨k0, v0⟩ := kv
    by_cases h0 : k0 = k
    · subst h0
      by_cases h1 : k0 = k'
      · subst h1
        simp [dset, dget]
      · have h1' : ¬k0 = k' := h1
        simp [dset, dget, h1']
    · by_cases h1 : k0 = k'
      · subst h1
        have h2 : ¬k = k0 := fun h => h0 h.symm
        simp [dset, dget, h0, h2]
      · simp [dset, dget, h0, h1, ih]

theorem mem_keys_dset {V : Type} (d : List (Str × V)) (k : Str) (v : V) (k' : Str) :
    k' ∈ keys (dset d k v) ↔ k' ∈ keys d ∨ k' = k := by
  induction d with
  | nil => simp [dset, keys, eq_comm]
  | cons kv rest ih =>
    obtain ⟨k0, v0⟩ := kv
    by_cases h0 : k0 = k
    · subst h0
      constructor
      · intro h
        rcases List.mem_cons.mp (by simpa [dset, keys] using h) with h | h
        · exact Or.inl (by simp [keys, h])
        · exact Or.inl (by simp [keys, h])
      · intro h
        rcases h with h | h
        · simpa [dset, keys] using (by simpa [keys] using h)
        · simp [dset, keys, h]
    · constructor
      · intro h
        rcases List.mem_cons.mp (by simpa [dset, keys, h0] using h) with h | h
        · exact Or.inl (by simp [keys, h])
        · rcases ih.mp h with h' | h'
          · exact Or.inl (by simp [keys, h'])
          · exact Or.inr h'
      · intro h
        have : k' = k0 ∨ k' ∈ keys (dset rest k v) := by
          rcases h with h | h
          · rcases List.mem_cons.mp (by simpa [keys] using h) with h' | h'
            · exact Or.inl h'
            · exact Or.inr (ih.mpr (Or.inl h'))
          · exact Or.inr (ih.mpr (Or.inr h))
        simpa [dset, keys, h0] using this

theorem mem_keys_dpop {V : Type} (d : List (Str × V)) (k : Str) (k' : Str)
    (h : k' ∈ keys (dpop d k)) : k' ∈ keys d := by
  induction d with
  | nil => simp [dpop, keys] at h
  | cons kv rest ih =>
    obtain ⟨k0, v0⟩ := kv
    by_cases h0 : k0 = k
    · subst h0
      have h' : k' ∈ keys rest := by simpa [dpop, keys] using h
      simp [keys, h']
    · rcases List.mem_cons.mp (by simpa [dpop, keys, h0] using h) with h' | h'
      · simp [keys, h']
      · simp [keys, ih h']

theorem not_mem_keys_dpop {V : Type} (d : List (Str × V)) (k : Str)
    (h : (keys d).Nodup) : k ∉ keys (dpop d k) := by
  induction d with
  | nil => simp [dpop, keys]
  | cons kv rest ih =>
    obtain ⟨k0, v0⟩ := kv
    rw [show keys ((k0, v0) :: rest) = k0 :: keys rest from rfl, List.nodup_cons] at h
    by_cases h0 : k0 = k
    · subst h0
      simpa [dpop, keys] using h.1
    · intro hk
      rcases List.mem_cons.mp (by simpa [dpop, keys, h0] using hk) with h' | h'
      · exact h0 h'.symm
      · exact ih h.2 h'

theorem dget_eq_none_of_not_mem {V : Type} (d : List (Str × V)) (k : Str)
    (h : k ∉ keys d) : dget d k = none := by
  induction d with
  | nil => rfl
  | cons kv rest ih =>
    obtain ⟨k0, v0⟩ := kv
    rw [show keys ((k0, v0) :: rest) = k0 :: keys rest from rfl] at h
    have h1 : ¬k0 = k := fun he => h (by simp [he])
    have h2 : k ∉ keys rest := fun hm => h (by simp [hm])
    simp [dget, h1, ih h2]

theorem dget_mem {V : Type} (d : List (Str × V)) (k : Str) (v : V)
    (h : dget d k = some v) : (k, v) ∈ d := by
  induction d with
  | nil => simp [dget] at h
  | cons kv rest ih =>
    obtain ⟨k0, v0⟩ := kv
    by_cases h0 : k0 = k
    · subst h0
      have : v0 = v := by simpa [dget] using h
      simp [this]
    · have h' : dget rest k = some v := by simpa [dget, h0] using h
      exact List.mem_cons_of_mem _ (ih h')

theorem mem_dset {V : Type} (d : List (Str × V)) (k : Str) (v : V) (kv : Str × V)
    (h : kv ∈ dset d k v) : kv ∈ d ∨ kv = (k, v) := by
  induction d with
  | nil => exact Or.inr (by simpa [dset] using h)
  | cons kv0 rest ih =>
    obtain ⟨k0, v0⟩ := kv0
    by_cases h0 : k0 = k
    · subst h0
      rcases List.mem_cons.mp (by simpa [dset] using h) with h' | h'
      · exact Or.inr (by simp [h'])
      · exact Or.inl (List.mem_cons_of_mem _ h')
    · rcases List.mem_cons.mp (by simpa [dset, h0] using h) with h' | h'
      · exact Or.inl (by simp [h'])
      · rcases ih h' with h'' | h''
        · exact Or.inl (List.mem_cons_of_mem _ h'')
        · exact Or.inr h''

theorem mem_dpop {V : Type} (d : List (Str × V)) (k : Str) (kv : Str × V)
    (h : kv ∈ dpop d k) : kv ∈ d := by
  induction d with
  | nil => simp [dpop] at h
  | cons kv0 rest ih =>
    obtain ⟨k0, v0⟩ := kv0
    by_cases h0 : k0 = k
    · subst h0
      exact List.mem_cons_of_mem _ (by simpa [dpop] using h)
    · rcases List.mem_cons.mp (by simpa [dpop, h0] using h) with h' | h'
      · simp [h']
      · exact List.mem_cons_of_mem _ (ih h')

theorem nodup_keys_dset {V : Type} (d : List (Str × V)) (k : Str) (v : V)
    (h : (keys d).Nodup) : (keys (dset d k v)).Nodup := by
  induction d with
  | nil => simp [dset, keys]
  | cons kv0 rest ih =>
    obtain ⟨k0, v0⟩ := kv0
    rw [show keys ((k0, v0) :: rest) = k0 :: keys rest from rfl, List.nodup_cons] at h
    by_cases h0 : k0 = k
    · subst h0
      rw [show dset ((k0, v0) :: rest) k0 v = (k0, v) :: rest by simp [dset]]
      rw [show keys ((k0, v) :: rest) = k0 :: keys rest from rfl, List.nodup_cons]
      exact h
    · rw [show dset ((k0, v0) :: rest) k v = (k0, v0) :: dset rest k v by simp [dset, h0]]
      rw [show keys ((k0, v0) :: dset rest k v) = k0 :: keys (dset rest k v) from rfl,
        List.nodup_cons]
      refine ⟨fun hk => ?_, ih h.2⟩
      rcases (mem_keys_dset rest k v k0).mp hk with hmem | he
      · exact h.1 hmem
      · exact h0 he

theorem dset_eq_append_of_not_mem {V : Type} (d : List (Str × V)) (k : Str) (v : V)
    (h : k ∉ keys d) : dset d k v = d ++ [(k, v)] := by
  induction d with
  | nil => simp [dset]
  | cons kv0 rest ih =>
    obtain ⟨k0, v0⟩ := kv0
    rw [show keys ((k0, v0) :: rest) = k0 :: keys rest from rfl] at h
    have h1 : ¬k0 = k := fun he => h (by simp [he])
    have h2 : k ∉ keys rest := fun hm => h (by simp [hm])
    simp [dset, h1, ih h2]

theorem mem_listRemove (s : Str) (l : List Str) (x : Str) (hx : x ∈ l) (hne : x ≠ s) :
    x ∈ listRemove s l := by
  induction l with
  | nil => simp at hx
  | cons y ys ih =>
    by_cases h0 : y = s
    · subst h0
      rw [show listRemove y (y :: ys) = ys by simp [listRemove]]
      rcases List.mem_cons.mp hx with h | h
      · exact absurd h hne
      · exact h
    · rw [show listRemove s (y :: ys) = y :: listRemove s ys by simp [listRemove, h0]]
      rcases List.mem_cons.mp hx with h | h
      · simp [h]
      · exact List.mem_cons_of_mem _ (ih h)

example : dget (dset ([] : List (Str × Nat)) (strOf "A") 3) (strOf "A") = some 3 := by decide

example : StopoverEmailService.BCC_TAG = strOf "__BCC__:" := by decide

example :
    StopoverEmailService.decode_recipients
        (StopoverEmailService.encode_recipients
          [strOf "a@x.com"] [strOf "c@x.com"] [strOf "b@x.com"]) =
      ([strOf "a@x.com"], [strOf "c@x.com"], [strOf "b@x.com"]) := by decide

example :
    StopoverEmailService.decode_recipients
        (StopoverEmailService.encode_recipients [strOf " a@x.com "] [] []) =
      ([strOf "a@x.com"], [], []) := by decide

example :
    DetectionEngine.extract_stopover_code (strOf "[ABJ]-Bilan and XYZ - Bilan") =
      some (strOf "XYZ") := by decide

example : DetectionEngine.extract_stopover_code (strOf "[abj]-Bilan") = some (strOf "ABJ") := by
  decide

example : DetectionEngine.extract_stopover_code (strOf "no code here") = none := by decide

example : DetectionEngine.is_stopover_page (strOf "ABJ - Bilan des objectifs") = true := by decide

/-! Helper lemmas about the `ConfigManager` mutations. -/

theorem add_stopover_mappings (s : Str) (c : Config) :
    (ConfigManager.add_stopover s c).mappings = c.mappings := by
  unfold ConfigManager.add_stopover
  split <;> rfl

theorem add_stopover_last_sent (s : Str) (c : Config) :
    (ConfigManager.add_stopover s c).last_sent = c.last_sent := by
  unfold ConfigManager.add_stopover
  split <;> rfl

theorem add_stopover_stopovers_superset (s : Str) (c : Config) (x : Str)
    (hx : x ∈ c.stopovers) : x ∈ (ConfigManager.add_stopover s c).stopovers := by
  unfold ConfigManager.add_stopover
  split
  · exact hx
  · exact List.mem_append_left _ hx

/-- Keys surviving the uppercase-and-filter dict comprehension of
`set_stopovers` all lie in the new stopover list. -/
theorem upper_fold_keys {V : Type} (desired : List Str) (l : List (Str × V)) :
    ∀ acc : List (Str × V), (∀ k ∈ keys acc, k ∈ desired) →
      ∀ k ∈ keys (l.foldl
        (fun a kv => if pyUpper kv.1 ∈ desired then dset a (pyUpper kv.1) kv.2 else a) acc),
        k ∈ desired := by
  induction l with
  | nil => intro acc hacc; simpa using hacc
  | cons kv rest ih =>
    intro acc hacc
    simp only [List.foldl_cons]
    by_cases h : pyUpper kv.1 ∈ desired
    · rw [if_pos h]
      refine ih _ (fun k hk => ?_)
      rcases (mem_keys_dset acc (pyUpper kv.1) kv.2 k).mp hk with h' | h'
      · exact hacc k h'
      · exact h' ▸ h
    · rw [if_neg h]
      exact ih _ hacc

/-- Members of an uppercased list are fixed points of `pyUpper`. -/
theorem mem_map_pyUpper_fixed (S : List Str) (x : Str) (h : x ∈ S.map pyUpper) :
    pyUpper x = x := by
  rcases List.mem_map.mp h with ⟨y, _, rfl⟩
  exact pyUpper_idem y

/-- CLAIM C7. For every page text, `is_stopover_page` holds iff a code is
extracted and the objectives keyword occurs (case-insensitively); a page with
a code but no keyword is rejected, a page with the keyword but no code is
rejected, and a page with both is classified with the extracted code. -/
theorem claim_C7 :
    (∀ text, DetectionEngine.is_stopover_page text = true ↔
      ((∃ code, DetectionEngine.extract_stopover_code text = some code) ∧
        DetectionEngine.contains_objectives text = true)) ∧
    DetectionEngine.extract_stopover_code (strOf "ABJ - Bilan") = some (strOf "ABJ") ∧
    DetectionEngine.is_stopover_page (strOf "ABJ - Bilan") = false ∧
    DetectionEngine.contains_objectives (strOf "Objectifs de la page") = true ∧
    DetectionEngine.is_stopover_page (strOf "Objectifs de la page") = false ∧
    DetectionEngine.is_stopover_page (strOf "ABJ - Bilan des objectifs") = true ∧
    DetectionEngine.extract_stopover_code (strOf "ABJ - Bilan des objectifs") =
      some (strOf "ABJ") := by
  refine ⟨?_, by decide, by decide, by decide, by decide, by decide, by decide⟩
  intro text
  simp [DetectionEngine.is_stopover_page, Bool.and_eq_true, Option.isSome_iff_exists]

/-- CLAIM C8. Every setter completes without raising even when the disk write
fails: the in-memory mutation is kept (not rolled back) for every disk
outcome, so subsequent getters serve the new value. -/
theorem claim_C8 :
    (∀ d S c, ConfigManager.set_stopovers_run d S c =
      Except.ok (ConfigManager.set_stopovers S c)) ∧
    (∀ d s c, ConfigManager.add_stopover_run d s c =
      Except.ok (ConfigManager.add_stopover s c)) ∧
    (∀ d s c, ConfigManager.remove_stopover_run d s c =
      Except.ok (ConfigManager.remove_stopover s c)) ∧
    (∀ d s ems c, ConfigManager.set_mapping_run d s ems c =
      Except.ok (ConfigManager.set_mapping s ems c)) ∧
    (∀ d s c, ConfigManager.remove_mapping_run d s c =
      Except.ok (ConfigManager.remove_mapping s c)) ∧
    (∀ d a b c, ConfigManager.set_templates_run d a b c =
      Except.ok (ConfigManager.set_templates a b c)) ∧
    (∀ d now s ts c, ConfigManager.set_last_sent_run d now s ts c =
      Except.ok (ConfigManager.set_last_sent now s ts c)) ∧
    (∀ d s c, ConfigManager.clear_last_sent_run d s c =
      Except.ok (ConfigManager.clear_last_sent s c)) ∧
    (∀ d S c cfg, ConfigManager.set_stopovers_run d S c = Except.ok cfg →
      ConfigManager.get_stopovers cfg = S.map pyUpper) := by
  refine ⟨?_, ?_, ?_, ?_, ?_, ?_, ?_, ?_, ?_⟩
  · intro d S c
    cases d <;> rfl
  · intro d s c
    by_cases h : s ∈ c.stopovers
    · simp [ConfigManager.add_stopover_run, ConfigManager.add_stopover, h]
    · cases d <;>
        simp [ConfigManager.add_stopover_run, ConfigManager.add_stopover, h,
          ConfigManager.save, ConfigManager.atomic_write_json]
  · intro d s c
    cases d <;> rfl
  · intro d s ems c
    cases d <;> rfl
  · intro d s c
    by_cases h : s ∈ keys c.mappings
    · cases d <;>
        simp [ConfigManager.remove_mapping_run, ConfigManager.remove_mapping, h,
          ConfigManager.save, ConfigManager.atomic_write_json]
    · simp [ConfigManager.remove_mapping_run, ConfigManager.remove_mapping, h]
  · intro d a b c
    cases d <;> rfl
  · intro d now s ts c
    cases d <;> rfl
  · intro d s c
    by_cases h : s ∈ keys c.last_sent
    · cases d <;>
        simp [ConfigManager.clear_last_sent_run, ConfigManager.clear_last_sent, h,
          ConfigManager.save, ConfigManager.atomic_write_json]
    · simp [ConfigManager.clear_last_sent_run, ConfigManager.clear_last_sent, h]
  · intro d S c cfg h
    cases d <;> simp [ConfigManager.set_stopovers_run, ConfigManager.save,
      ConfigManager.atomic_write_json] at h <;>
      simp [← h, ConfigManager.get_stopovers, ConfigManager.set_stopovers]

/-- CLAIM C5. After `set_stopovers S`, the stopover list is exactly the
uppercased input and any code whose uppercase form is not in it is absent
from both `mappings` and `last_sent`. -/
theorem claim_C5 (c : Config) (S : List Str) :
    (ConfigManager.set_stopovers S c).stopovers = S.map pyUpper ∧
    ∀ code, pyUpper code ∉ S.map pyUpper →
      code ∉ keys (ConfigManager.set_stopovers S c).mappings ∧
      code ∉ keys (ConfigManager.set_stopovers S c).last_sent := by
  refine ⟨rfl, fun code hcode => ⟨fun hmem => ?_, fun hmem => ?_⟩⟩
  · have h1 : code ∈ S.map pyUpper := by
      refine upper_fold_keys (S.map pyUpper) c.mappings [] (by simp [keys]) code ?_
      simpa [ConfigManager.set_stopovers] using hmem
    exact hcode (by rw [mem_map_pyUpper_fixed S code h1]; exact h1)
  · have h1 : code ∈ S.map pyUpper := by
      refine upper_fold_keys (S.map pyUpper) c.last_sent [] (by simp [keys]) code ?_
      simpa [ConfigManager.set_stopovers] using hmem
    exact hcode (by rw [mem_map_pyUpper_fixed S code h1]; exact h1)

/-- WITNESS for C5 at a concrete state: after `set_stopovers ["abj"]`, the
code `"xyz"` (whose uppercase form is absent) has no mapping entry. -/
theorem claim_C5_witness :
    strOf "xyz" ∉
      keys (ConfigManager.set_stopovers [strOf "abj"] ConfigManager.default_config).mappings :=
  ((claim_C5 ConfigManager.default_config [strOf "abj"]).2 (strOf "xyz") (by decide)).1

/-- Keyed-state well-formedness: real Python dicts never hold a key twice. -/
def dict_keys_nodup (c : Config) : Prop :=
  (keys c.mappings).Nodup ∧ (keys c.last_sent).Nodup

/-- The pruning invariant of the spec: every mapping key and every last-sent
key is also one of the stopovers. -/
def stopover_key_invariant (c : Config) : Prop :=
  (∀ k ∈ keys c.mappings, k ∈ c.stopovers) ∧ (∀ k ∈ keys c.last_sent, k ∈ c.stopovers)

/-- COUNTEREXAMPLE for C3. `set_last_sent` stamps a code that is not a
stopover: from the default state, `set_last_sent "ABJ"` leaves the key
`"ABJ"` in `last_sent` while `stopovers` stays empty, so the invariant fails
after this mutation. -/
theorem claim_C3_counterexample :
    strOf "ABJ" ∈
      keys (ConfigManager.set_last_sent (strOf "2025-10-12T00:00:00Z") (strOf "ABJ") none
        ConfigManager.default_config).last_sent ∧
    strOf "ABJ" ∉
      (ConfigManager.set_last_sent (strOf "2025-10-12T00:00:00Z") (strOf "ABJ") none
        ConfigManager.default_config).stopovers := by
  decide

/-- CLAIM C3 (amended). On any dict-well-formed state satisfying the
invariant, every mutation except `set_last_sent` preserves it
(`set_stopovers` even establishes it); `set_last_sent` preserves only the
mappings half and can leave a `last_sent` key outside `stopovers`. -/
theorem claim_C3_amended (c : Config) (hwf : dict_keys_nodup c)
    (hinv : stopover_key_invariant c) :
    (∀ S, stopover_key_invariant (ConfigManager.set_stopovers S c)) ∧
    (∀ s, stopover_key_invariant (ConfigManager.add_stopover s c)) ∧
    (∀ s, stopover_key_invariant (ConfigManager.remove_stopover s c)) ∧
    (∀ s ems, stopover_key_invariant (ConfigManager.set_mapping s ems c)) ∧
    (∀ s, stopover_key_invariant (ConfigManager.remove_mapping s c)) ∧
    (∀ a b, stopover_key_invariant (ConfigManager.set_templates a b c)) ∧
    (∀ s, stopover_key_invariant (ConfigManager.clear_last_sent s c)) ∧
    (∀ now s ts, ∀ k ∈ keys (ConfigManager.set_last_sent now s ts c).mappings,
      k ∈ (ConfigManager.set_last_sent now s ts c).stopovers) := by
  obtain ⟨hwm, hwl⟩ := hwf
  obtain ⟨him, hil⟩ := hinv
  refine ⟨?_, ?_, ?_, ?_, ?_, ?_, ?_, ?_⟩
  · intro S
    constructor
    · intro k hk
      exact upper_fold_keys (S.map pyUpper) c.mappings [] (by simp [keys]) k
        (by simpa [ConfigManager.set_stopovers] using hk)
    · intro k hk
      exact upper_fold_keys (S.map pyUpper) c.last_sent [] (by simp [keys]) k
        (by simpa [ConfigManager.set_stopovers] using hk)
  · intro s
    refine ⟨fun k hk => ?_, fun k hk => ?_⟩
    · rw [add_stopover_mappings] at hk
      exact add_stopover_stopovers_superset s c k (him k hk)
    · rw [add_stopover_last_sent] at hk
      exact add_stopover_stopovers_superset s c k (hil k hk)
  · intro s
    constructor
    · intro k hk
      by_cases hmem : s ∈ keys c.mappings
      · have hk' : k ∈ keys (dpop c.mappings s) := by
          simpa [ConfigManager.remove_stopover, hmem] using hk
        have hkm : k ∈ keys c.mappings := mem_keys_dpop _ _ _ hk'
        have hks : ¬k = s := fun he => not_mem_keys_dpop c.mappings s hwm (he ▸ hk')
        have : k ∈ c.stopovers := him k hkm
        simp only [ConfigManager.remove_stopover]
        by_cases hs : s ∈ c.stopovers
        · simpa [hs] using mem_listRemove s c.stopovers k this hks
        · simpa [hs] using this
      · have hk' : k ∈ keys c.mappings := by
          simpa [ConfigManager.remove_stopover, hmem] using hk
        have hks : ¬k = s := fun he => hmem (he ▸ hk')
        have : k ∈ c.stopovers := him k hk'
        simp only [ConfigManager.remove_stopover]
        by_cases hs : s ∈ c.stopovers
        · simpa [hs] using mem_listRemove s c.stopovers k this hks
        · simpa [hs] using this
    · intro k hk
      by_cases hmem : s ∈ keys c.last_sent
      · have hk' : k ∈ keys (dpop c.last_sent s) := by
          simpa [ConfigManager.remove_stopover, hmem] using hk
        have hkm : k ∈ keys c.last_sent := mem_keys_dpop _ _ _ hk'
        have hks : ¬k = s := fun he => not_mem_keys_dpop c.last_sent s hwl (he ▸ hk')
        have : k ∈ c.stopovers := hil k hkm
        simp only [ConfigManager.remove_stopover]
        by_cases hs : s ∈ c.stopovers
        · simpa [hs] using mem_listRemove s c.stopovers k this hks
        · simpa [hs] using this
      · have hk' : k ∈ keys c.last_sent := by
          simpa [ConfigManager.remove_stopover, hmem] using hk
        have hks : ¬k = s := fun he => hmem (he ▸ hk')
        have : k ∈ c.stopovers := hil k hk'
        simp only [ConfigManager.remove_stopover]
        by_cases hs : s ∈ c.stopovers
        · simpa [hs] using mem_listRemove s c.stopovers k this hks
        · simpa [hs] using this
  · intro s ems
    constructor
    · intro k hk
      have hk' : k ∈ keys (dset c.mappings (pyUpper s) ems) := by
        simpa [ConfigManager.set_mapping] using hk
      simp only [ConfigManager.set_mapping]
      rcases (mem_keys_dset c.mappings (pyUpper s) ems k).mp hk' with h' | h'
      · have : k ∈ c.stopovers := him k h'
        by_cases hs : pyUpper s ∈ c.stopovers
        · simpa [hs] using this
        · simp [hs]
          exact Or.inl this
      · subst h'
        by_cases hs : pyUpper s ∈ c.stopovers
        · simp [hs]
        · simp [hs]
    · intro k hk
      have hk' : k ∈ keys c.last_sent := by
        simpa [ConfigManager.set_mapping] using hk
      have : k ∈ c.stopovers := hil k hk'
      simp only [ConfigManager.set_mapping]
      by_cases hs : pyUpper s ∈ c.stopovers
      · simpa [hs] using this
      · simp [hs]
        exact Or.inl this
  · intro s
    unfold ConfigManager.remove_mapping
    split
    · refine ⟨fun k hk => ?_, fun k hk => ?_⟩
      · exact him k (mem_keys_dpop _ _ _ hk)
      · exact hil k hk
    · exact ⟨him, hil⟩
  · intro a b
    exact ⟨him, hil⟩
  · intro s
    unfold ConfigManager.clear_last_sent
    split
    · refine ⟨fun k hk => ?_, fun k hk => ?_⟩
      · exact him k hk
      · exact hil k (mem_keys_dpop _ _ _ hk)
    · exact ⟨him, hil⟩
  · intro now s ts k hk
    exact him k hk

/-- WITNESS for C3 (amended) at the default state: `add_stopover "NCE"`
preserves the invariant. -/
theorem claim_C3_witness :
    stopover_key_invariant
      (ConfigManager.add_stopover (strOf "NCE") ConfigManager.default_config) :=
  (claim_C3_amended ConfigManager.default_config
    (by constructor <;> simp [ConfigManager.default_config, keys])
    (by constructor <;> simp [ConfigManager.default_config, keys])).2.1 (strOf "NCE")

/-- COUNTEREXAMPLE for C4. `add_stopover` stores the code verbatim:
`add_stopover "abj"` from the default state leaves the lowercase `"abj"` in
`stopovers`, and the lookup in `remove_stopover "ABJ"` does not match it, so
codes are neither normalized before storage nor matched case-insensitively. -/
theorem claim_C4_counterexample :
    (ConfigManager.add_stopover (strOf "abj") ConfigManager.default_config).stopovers =
      [strOf "abj"] ∧
    pyUpper (strOf "abj") ≠ strOf "abj" ∧
    (ConfigManager.remove_stopover (strOf "ABJ")
        (ConfigManager.add_stopover (strOf "abj") ConfigManager.default_config)).stopovers =
      [strOf "abj"] := by
  decide

/-- CLAIM C4 (amended). Only `set_stopovers`, `set_mapping` and
`set_last_sent` uppercase their code before storage or lookup;
`add_stopover`, `remove_stopover` and `clear_last_sent` use the input string
verbatim, so they can store non-uppercase codes and their lookups are
case-sensitive. -/
theorem claim_C4_amended :
    (∀ S c, ∀ x ∈ (ConfigManager.set_stopovers S c).stopovers, pyUpper x = x) ∧
    (∀ s ems c,
      dget (ConfigManager.set_mapping s ems c).mappings (pyUpper s) = some ems ∧
      pyUpper s ∈ (ConfigManager.set_mapping s ems c).stopovers) ∧
    (∀ now s ts c, pyUpper s ∈ keys (ConfigManager.set_last_sent now s ts c).last_sent) ∧
    (∀ s c, s ∉ c.stopovers →
      (ConfigManager.add_stopover s c).stopovers = c.stopovers ++ [s]) ∧
    (∀ s c, s ∉ c.stopovers →
      (ConfigManager.remove_stopover s c).stopovers = c.stopovers) ∧
    (∀ s c, s ∉ keys c.last_sent → ConfigManager.clear_last_sent s c = c) := by
  refine ⟨?_, ?_, ?_, ?_, ?_, ?_⟩
  · intro S c x hx
    exact mem_map_pyUpper_fixed S x hx
  · intro s ems c
    constructor
    · simp [ConfigManager.set_mapping, dget_dset]
    · simp only [ConfigManager.set_mapping]
      by_cases hs : pyUpper s ∈ c.stopovers
      · simp [hs]
      · simp [hs]
  · intro now s ts c
    simp only [ConfigManager.set_last_sent]
    exact (mem_keys_dset c.last_sent (pyUpper s) _ (pyUpper s)).mpr (Or.inr rfl)
  · intro s c h
    simp [ConfigManager.add_stopover, h]
  · intro s c h
    simp [ConfigManager.remove_stopover, h]
  · intro s c h
    simp [ConfigManager.clear_last_sent, h]

/-- WITNESS for C4 (amended) at concrete inputs: `add_stopover "abj"` on the
default state appends the lowercase code verbatim. -/
theorem claim_C4_witness :
    (ConfigManager.add_stopover (strOf "abj") ConfigManager.default_config).stopovers =
      ConfigManager.default_config.stopovers ++ [strOf "abj"] :=
  claim_C4_amended.2.2.2.1 (strOf "abj") ConfigManager.default_config (by decide)

/-! Value invariants of the mapping dictionary. -/

/-- No mapping value holds the same address twice. -/
def mappings_values_nodup (c : Config) : Prop := ∀ kv ∈ c.mappings, kv.2.Nodup

/-- No mapping value is the empty list. -/
def mappings_values_nonempty (c : Config) : Prop := ∀ kv ∈ c.mappings, kv.2 ≠ []

theorem dgetD_values_nodup (c : Config) (h : mappings_values_nodup c) (k : Str) :
    (dgetD c.mappings k []).Nodup := by
  unfold dgetD
  cases hd : dget c.mappings k with
  | none => simp
  | some v => exact h (k, v) (dget_mem _ _ _ hd)

/-- First component of `MappingService.add_mapping`, spelled out. -/
theorem ms_add_mapping_fst (code email : Str) (c : Config) :
    (MappingService.add_mapping code email c).1 =
      if pyStrip email ≠ [] ∧
          pyStrip email ∉ dgetD (ConfigManager.get_mappings c) (pyUpper code) [] then
        ConfigManager.add_stopover (pyUpper code)
          (ConfigManager.set_mapping (pyUpper code)
            (dgetD (ConfigManager.get_mappings c) (pyUpper code) [] ++ [pyStrip email]) c)
      else c := by
  unfold MappingService.add_mapping
  dsimp only
  split <;> rfl

/-- First component of `MappingService.remove_mapping`, spelled out. -/
theorem ms_remove_mapping_fst (code email : Str) (c : Config) :
    (MappingService.remove_mapping code email c).1 =
      if pyUpper code ∈ keys (ConfigManager.get_mappings c) ∧
          pyStrip email ∈ dgetD (ConfigManager.get_mappings c) (pyUpper code) [] then
        if (dgetD (ConfigManager.get_mappings c) (pyUpper code) []).filter
            (fun e => e ≠ pyStrip email) ≠ [] then
          ConfigManager.set_mapping (pyUpper code)
            ((dgetD (ConfigManager.get_mappings c) (pyUpper code) []).filter
              (fun e => e ≠ pyStrip email)) c
        else ConfigManager.remove_mapping (pyUpper code) c
      else c := by
  unfold MappingService.remove_mapping
  dsimp only
  split
  · split <;> rfl
  · rfl

/-- Second component of `MappingService.remove_mapping`, spelled out. -/
theorem ms_remove_mapping_snd (code email : Str) (c : Config) :
    (MappingService.remove_mapping code email c).2 = true ↔
      (pyUpper code ∈ keys (ConfigManager.get_mappings c) ∧
        pyStrip email ∈ dgetD (ConfigManager.get_mappings c) (pyUpper code) []) := by
  unfold MappingService.remove_mapping
  dsimp only
  split
  · rename_i hc
    constructor
    · intro _
      exact hc
    · intro _
      split <;> rfl
  · rename_i hc
    constructor
    · intro h
      simp at h
    · intro h
      exact absurd h hc

theorem set_mapping_mappings (s : Str) (ems : List Str) (c : Config) :
    (ConfigManager.set_mapping s ems c).mappings = dset c.mappings (pyUpper s) ems := rfl

theorem remove_mapping_mappings (s : Str) (c : Config) :
    (ConfigManager.remove_mapping s c).mappings =
      if s ∈ keys c.mappings then dpop c.mappings s else c.mappings := by
  unfold ConfigManager.remove_mapping
  split <;> simp_all

theorem ms_add_values_nodup (code email : Str) (c : Config) (h : mappings_values_nodup c) :
    mappings_values_nodup (MappingService.add_mapping code email c).1 := by
  rw [ms_add_mapping_fst]
  split
  · rename_i hc
    intro kv hkv
    rw [add_stopover_mappings, set_mapping_mappings] at hkv
    rcases mem_dset _ _ _ _ hkv with h' | h'
    · exact h kv h'
    · subst h'
      rw [List.nodup_append]
      refine ⟨dgetD_values_nodup c h (pyUpper code), List.nodup_singleton _, ?_⟩
      intro x hx hxa
      rw [List.mem_singleton] at hxa
      exact hc.2 (hxa ▸ hx)
  · exact h

theorem ms_remove_values_nodup (code email : Str) (c : Config)
    (h : mappings_values_nodup c) :
    mappings_values_nodup (MappingService.remove_mapping code email c).1 := by
  rw [ms_remove_mapping_fst]
  split
  · split
    · intro kv hkv
      rw [set_mapping_mappings] at hkv
      rcases mem_dset _ _ _ _ hkv with h' | h'
      · exact h kv h'
      · subst h'
        exact List.Nodup.filter _ (dgetD_values_nodup c h (pyUpper code))
    · intro kv hkv
      rw [remove_mapping_mappings] at hkv
      split at hkv
      · exact h kv (mem_dpop _ _ _ hkv)
      · exact h kv hkv
  · exact h

theorem ms_add_values_nonempty (code email : Str) (c : Config)
    (h : mappings_values_nonempty c) :
    mappings_values_nonempty (MappingService.add_mapping code email c).1 := by
  rw [ms_add_mapping_fst]
  split
  · intro kv hkv
    rw [add_stopover_mappings, set_mapping_mappings] at hkv
    rcases mem_dset _ _ _ _ hkv with h' | h'
    · exact h kv h'
    · subst h'
      simp
  · exact h

theorem ms_remove_values_nonempty (code email : Str) (c : Config)
    (h : mappings_values_nonempty c) :
    mappings_values_nonempty (MappingService.remove_mapping code email c).1 := by
  rw [ms_remove_mapping_fst]
  split
  · split
    · rename_i hne
      intro kv hkv
      rw [set_mapping_mappings] at hkv
      rcases mem_dset _ _ _ _ hkv with h' | h'
      · exact h kv h'
      · subst h'
        exact hne
    · intro kv hkv
      rw [remove_mapping_mappings] at hkv
      split at hkv
      · exact h kv (mem_dpop _ _ _ hkv)
      · exact h kv hkv
  · exact h

theorem applyOps_values_nodup (ops : List MappingService.MsOp) :
    ∀ c, mappings_values_nodup c → mappings_values_nodup (MappingService.applyOps ops c) := by
  induction ops with
  | nil => intro c h; exact h
  | cons op rest ih =>
    intro c h
    have hstep : mappings_values_nodup (MappingService.applyOp c op) := by
      cases op with
      | add code email => exact ms_add_values_nodup code email c h
      | remove code email => exact ms_remove_values_nodup code email c h
    exact ih _ hstep

theorem applyOps_values_nonempty (ops : List MappingService.MsOp) :
    ∀ c, mappings_values_nonempty c →
      mappings_values_nonempty (MappingService.applyOps ops c) := by
  induction ops with
  | nil => intro c h; exact h
  | cons op rest ih =>
    intro c h
    have hstep : mappings_values_nonempty (MappingService.applyOp c op) := by
      cases op with
      | add code email => exact ms_add_values_nonempty code email c h
      | remove code email => exact ms_remove_values_nonempty code email c h
    exact ih _ hstep

/-- COUNTEREXAMPLE for C6. `ConfigManager.set_mapping` stores the recipient
list verbatim, so a single mutation from the default state can leave a
mapping value holding the same address twice. -/
theorem claim_C6_counterexample :
    dget (ConfigManager.set_mapping (strOf "ABJ") [strOf "a@x.com", strOf "a@x.com"]
        ConfigManager.default_config).mappings (strOf "ABJ") =
      some [strOf "a@x.com", strOf "a@x.com"] ∧
    ¬ List.Nodup [strOf "a@x.com", strOf "a@x.com"] := by
  decide

/-- CLAIM C6 (amended). `ConfigManager.set_mapping` stores its list verbatim
(and can therefore introduce duplicates), while the no-verbatim-duplicate
property holds of the `MappingService` facade: `add_mapping` appends an
address only when absent, and any sequence of `add_mapping` /
`remove_mapping` calls preserves duplicate-freedom of all mapping values. -/
theorem claim_C6_amended :
    (∀ s ems c, dget (ConfigManager.set_mapping s ems c).mappings (pyUpper s) = some ems) ∧
    (∀ code email c, mappings_values_nodup c →
      mappings_values_nodup (MappingService.add_mapping code email c).1 ∧
      mappings_values_nodup (MappingService.remove_mapping code email c).1) ∧
    (∀ ops c, mappings_values_nodup c →
      mappings_values_nodup (MappingService.applyOps ops c)) := by
  refine ⟨?_, ?_, ?_⟩
  · intro s ems c
    simp [set_mapping_mappings, dget_dset]
  · intro code email c h
    exact ⟨ms_add_values_nodup code email c h, ms_remove_values_nodup code email c h⟩
  · intro ops c h
    exact applyOps_values_nodup ops c h

/-- WITNESS for C6 (amended) at a concrete state: an add followed by a
remove through the facade keeps all mapping values duplicate-free. -/
theorem claim_C6_witness :
    mappings_values_nodup
      (MappingService.applyOps
        [MappingService.MsOp.add (strOf "abj") (strOf "a@x.com"),
         MappingService.MsOp.remove (strOf "abj") (strOf "a@x.com")]
        ConfigManager.default_config) :=
  claim_C6_amended.2.2 _ ConfigManager.default_config
    (by intro kv hkv; simp [ConfigManager.default_config] at hkv)

/-- CLAIM C10. The `MappingService` facade never leaves an empty recipient
list: any call sequence from a state without empty values keeps all values
non-empty; `remove_mapping` reports `true` exactly when the (normalized)
pair was present and deletes the whole entry when the removed address was
the last one; `add_mapping` refuses empty (all-whitespace) addresses. -/
theorem claim_C10 :
    (∀ ops c, mappings_values_nonempty c →
      mappings_values_nonempty (MappingService.applyOps ops c)) ∧
    (∀ code email c, (MappingService.remove_mapping code email c).2 = true ↔
      (pyUpper code ∈ keys (ConfigManager.get_mappings c) ∧
        pyStrip email ∈ dgetD (ConfigManager.get_mappings c) (pyUpper code) [])) ∧
    (∀ code email c, (keys c.mappings).Nodup →
      pyUpper code ∈ keys (ConfigManager.get_mappings c) →
      pyStrip email ∈ dgetD (ConfigManager.get_mappings c) (pyUpper code) [] →
      (dgetD (ConfigManager.get_mappings c) (pyUpper code) []).filter
        (fun e => e ≠ pyStrip email) = [] →
      dget (MappingService.remove_mapping code email c).1.mappings (pyUpper code) = none ∧
        (MappingService.remove_mapping code email c).2 = true) ∧
    (∀ code email c, pyStrip email = [] →
      MappingService.add_mapping code email c = (c, false)) := by
  refine ⟨?_, ?_, ?_, ?_⟩
  · intro ops c h
    exact applyOps_values_nonempty ops c h
  · intro code email c
    exact ms_remove_mapping_snd code email c
  · intro code email c hnd hmem hin hempty
    constructor
    · have hmem' : pyUpper code ∈ keys c.mappings := hmem
      rw [ms_remove_mapping_fst, if_pos ⟨hmem, hin⟩, if_neg (by simpa using hempty)]
      rw [remove_mapping_mappings, if_pos hmem']
      exact dget_eq_none_of_not_mem _ _ (not_mem_keys_dpop c.mappings (pyUpper code) hnd)
    · exact (ms_remove_mapping_snd code email c).mpr ⟨hmem, hin⟩
  · intro code email c h
    unfold MappingService.add_mapping
    dsimp only
    rw [if_neg]
    intro hcontra
    exact hcontra.1 h

/-- WITNESS for C10 at concrete inputs: removing the only address of a
mapping deletes the whole entry. -/
theorem claim_C10_witness :
    dget (MappingService.remove_mapping (strOf "abj") (strOf "a@x.com")
        (ConfigManager.set_mapping (strOf "ABJ") [strOf "a@x.com"]
          ConfigManager.default_config)).1.mappings (strOf "ABJ") = none :=
  (claim_C10.2.2.1 (strOf "abj") (strOf "a@x.com")
    (ConfigManager.set_mapping (strOf "ABJ") [strOf "a@x.com"] ConfigManager.default_config)
    (by decide) (by decide) (by decide) (by decide)).1

/-- WITNESS for C8 at concrete inputs: after a `set_stopovers` call completes
(disk outcome succeeded), the getter serves the uppercased list. -/
theorem claim_C8_witness :
    ConfigManager.get_stopovers
        (ConfigManager.set_stopovers [strOf "abj"] ConfigManager.default_config) =
      [strOf "abj"].map pyUpper :=
  claim_C8.2.2.2.2.2.2.2.2 ConfigManager.DiskOutcome.ok [strOf "abj"] ConfigManager.default_config
    (ConfigManager.set_stopovers [strOf "abj"] ConfigManager.default_config) rfl

/-! Group validity for the three stopover patterns. -/

theorem matchP1At_group (prev : Option Char) (cs : Str) (g : Str)
    (h : DetectionEngine.matchP1At prev cs = some g) :
    g.length = 3 ∧ g.all Char.isAlpha = true := by
  cases cs with
  | nil => exact Option.noConfusion h
  | cons a t1 =>
    cases t1 with
    | nil => exact Option.noConfusion h
    | cons b t2 =>
      cases t2 with
      | nil => exact Option.noConfusion h
      | cons c rest =>
        rw [show DetectionEngine.matchP1At prev (a :: b :: c :: rest) =
            (if (DetectionEngine.boundaryBefore prev && a.isAlpha && b.isAlpha && c.isAlpha &&
                DetectionEngine.tailP1 rest) = true then
              some [a, b, c] else none) from rfl] at h
        split at h
        · rename_i hcond
          injection h with h'
          subst h'
          simp only [Bool.and_eq_true] at hcond
          simp [List.all, hcond.1.1.1.2, hcond.1.1.2, hcond.1.2]
        · exact Option.noConfusion h

theorem matchP2At_group (cs : Str) (g : Str)
    (h : DetectionEngine.matchP2At cs = some g) :
    g.length = 3 ∧ g.all Char.isAlpha = true := by
  cases cs with
  | nil => exact Option.noConfusion h
  | cons l t1 =>
    cases t1 with
    | nil => exact Option.noConfusion h
    | cons a t2 =>
      cases t2 with
      | nil => exact Option.noConfusion h
      | cons b t3 =>
        cases t3 with
        | nil => exact Option.noConfusion h
        | cons c t4 =>
          cases t4 with
          | nil => exact Option.noConfusion h
          | cons r t5 =>
            cases t5 with
            | nil => exact Option.noConfusion h
            | cons d rest =>
              rw [show DetectionEngine.matchP2At (l :: a :: b :: c :: r :: d :: rest) =
                  (if (decide (l = '[') && decide (r = ']') && decide (d = '-') &&
                      a.isAlpha && b.isAlpha && c.isAlpha) = true then
                    match DetectionEngine.matchBilan rest with
                    | some rest2 =>
                      if DetectionEngine.noWordAfter rest2 = true then some [a, b, c] else none
                    | none => none
                  else none) from rfl] at h
              split at h
              · rename_i hcond
                simp only [Bool.and_eq_true] at hcond
                cases hm : DetectionEngine.matchBilan rest with
                | none => rw [hm] at h; exact Option.noConfusion h
                | some rest2 =>
                  rw [hm] at h
                  have h2 : (if DetectionEngine.noWordAfter rest2 = true then
                      some [a, b, c] else none) = some g := h
                  split at h2
                  · injection h2 with h'
                    subst h'
                    simp [List.all, hcond.1.2, hcond.2, hcond.1.1.2]
                  · exact Option.noConfusion h2
              · exact Option.noConfusion h

theorem matchP3At_group (cs : Str) (g : Str)
    (h : DetectionEngine.matchP3At cs = some g) :
    g.length = 3 ∧ g.all Char.isAlpha = true := by
  cases cs with
  | nil => exact Option.noConfusion h
  | cons a t1 =>
    cases t1 with
    | nil => exact Option.noConfusion h
    | cons b t2 =>
      cases t2 with
      | nil => exact Option.noConfusion h
      | cons c t3 =>
        cases t3 with
        | nil => exact Option.noConfusion h
        | cons d rest =>
          rw [show DetectionEngine.matchP3At (a :: b :: c :: d :: rest) =
              (if (decide (d = '-') && a.isAlpha && b.isAlpha && c.isAlpha) = true then
                match DetectionEngine.matchBilan rest with
                | some rest2 =>
                  if DetectionEngine.noWordAfter rest2 = true then some [a, b, c] else none
                | none => none
              else none) from rfl] at h
          split at h
          · rename_i hcond
            simp only [Bool.and_eq_true] at hcond
            cases hm : DetectionEngine.matchBilan rest with
            | none => rw [hm] at h; exact Option.noConfusion h
            | some rest2 =>
              rw [hm] at h
              have h2 : (if DetectionEngine.noWordAfter rest2 = true then
                  some [a, b, c] else none) = some g := h
              split at h2
              · injection h2 with h'
                subst h'
                simp [List.all, hcond.1.2, hcond.2, hcond.1.1.2]
              · exact Option.noConfusion h2
          · exact Option.noConfusion h

theorem searchP1_group (cs : Str) (g : Str) :
    ∀ prev, DetectionEngine.searchP1 prev cs = some g →
      g.length = 3 ∧ g.all Char.isAlpha = true := by
  induction cs with
  | nil => intro prev h; simp [DetectionEngine.searchP1] at h
  | cons c cs ih =>
    intro prev h
    unfold DetectionEngine.searchP1 at h
    cases hm : DetectionEngine.matchP1At prev (c :: cs) with
    | some g' =>
      rw [hm] at h
      injection h with h'
      exact h' ▸ matchP1At_group prev (c :: cs) g' hm
    | none =>
      rw [hm] at h
      exact ih (some c) h

theorem searchP2_group (cs : Str) (g : Str)
    (h : DetectionEngine.searchP2 cs = some g) :
    g.length = 3 ∧ g.all Char.isAlpha = true := by
  induction cs with
  | nil => simp [DetectionEngine.searchP2] at h
  | cons c cs ih =>
    unfold DetectionEngine.searchP2 at h
    cases hm : DetectionEngine.matchP2At (c :: cs) with
    | some g' =>
      rw [hm] at h
      injection h with h'
      exact h' ▸ matchP2At_group (c :: cs) g' hm
    | none =>
      rw [hm] at h
      exact ih h

theorem searchP3_group (cs : Str) (g : Str)
    (h : DetectionEngine.searchP3 cs = some g) :
    g.length = 3 ∧ g.all Char.isAlpha = true := by
  induction cs with
  | nil => simp [DetectionEngine.searchP3] at h
  | cons c cs ih =>
    unfold DetectionEngine.searchP3 at h
    cases hm : DetectionEngine.matchP3At (c :: cs) with
    | some g' =>
      rw [hm] at h
      injection h with h'
      exact h' ▸ matchP3At_group (c :: cs) g' hm
    | none =>
      rw [hm] at h
      exact ih h

/-- The validity check of `extract_stopover_code` accepts an uppercased
three-letter alphabetic group. -/
theorem code_check_passes (g : Str) (hg : g.length = 3 ∧ g.all Char.isAlpha = true) :
    (decide ((pyUpper g).length = 3) && (pyUpper g).all Char.isAlpha) = true := by
  obtain ⟨hlen, hall⟩ := hg
  simp only [Bool.and_eq_true, decide_eq_true_eq]
  constructor
  · simpa [pyUpper] using hlen
  · rw [List.all_eq_true] at hall ⊢
    intro x hx
    rcases List.mem_map.mp hx with ⟨y, hy, rfl⟩
    exact isAlpha_toUpper y (hall y hy)

theorem tryPatterns_cons_some (p : Str → Option Str) (ps : List (Str → Option Str))
    (text g : Str) (hp : p text = some g)
    (hcheck : (decide ((pyUpper g).length = 3) && (pyUpper g).all Char.isAlpha) = true) :
    DetectionEngine.tryPatterns (p :: ps) text = some (pyUpper g) := by
  have heq : DetectionEngine.tryPatterns (p :: ps) text =
      (match p text with
       | some g =>
         let code := pyUpper g
         if (decide (code.length = 3) && code.all Char.isAlpha) = true then some code
         else DetectionEngine.tryPatterns ps text
       | none => DetectionEngine.tryPatterns ps text) := rfl
  rw [heq, hp]
  dsimp only
  rw [if_pos hcheck]

theorem tryPatterns_cons_none (p : Str → Option Str) (ps : List (Str → Option Str))
    (text : Str) (hp : p text = none) :
    DetectionEngine.tryPatterns (p :: ps) text = DetectionEngine.tryPatterns ps text := by
  have heq : DetectionEngine.tryPatterns (p :: ps) text =
      (match p text with
       | some g =>
         let code := pyUpper g
         if (decide (code.length = 3) && code.all Char.isAlpha) = true then some code
         else DetectionEngine.tryPatterns ps text
       | none => DetectionEngine.tryPatterns ps text) := rfl
  rw [heq, hp]

/-- COUNTEREXAMPLE for C1. The bracketed pattern is tried second, not first:
on text holding `"[ABJ]-Bilan"` and elsewhere the spaced match
`"XYZ - Bilan"`, the word-bounded hyphen/spaced pattern (which is listed
first) matches `XYZ`, so `extract_stopover_code` returns `"XYZ"` rather than
the bracketed code `"ABJ"`. -/
theorem claim_C1_counterexample :
    DetectionEngine.extract_stopover_code (strOf "[ABJ]-Bilan and XYZ - Bilan") =
      some (strOf "XYZ") ∧
    some (strOf "XYZ") ≠ some (strOf "ABJ") := by
  decide

/-- CLAIM C1 (amended). Patterns are tried strictly in list order and the
first match anywhere in the text wins, but the order is: word-bounded
hyphen/spaced form first, then the bracketed form, then the loose hyphen
form.  Consequently, on text with `"[ABJ]-Bilan"` and elsewhere a spaced
match for a different code, the spaced form's code wins; the bracketed form
wins only when the first pattern matches nowhere. -/
theorem claim_C1_amended :
    (∀ text g, DetectionEngine.searchP1 none text = some g →
      DetectionEngine.extract_stopover_code text = some (pyUpper g)) ∧
    (∀ text g, DetectionEngine.searchP1 none text = none →
      DetectionEngine.searchP2 text = some g →
      DetectionEngine.extract_stopover_code text = some (pyUpper g)) ∧
    (∀ text g, DetectionEngine.searchP1 none text = none →
      DetectionEngine.searchP2 text = none →
      DetectionEngine.searchP3 text = some g →
      DetectionEngine.extract_stopover_code text = some (pyUpper g)) ∧
    DetectionEngine.extract_stopover_code (strOf "[ABJ]-Bilan and XYZ - Bilan") =
      some (strOf "XYZ") := by
  refine ⟨?_, ?_, ?_, by decide⟩
  · intro text g h
    cases text with
    | nil => exact Option.noConfusion h
    | cons c cs =>
      unfold DetectionEngine.extract_stopover_code
      rw [if_neg (by simp)]
      unfold DetectionEngine.STOPOVER_PATTERNS
      exact tryPatterns_cons_some _ _ _ _ h
        (code_check_passes g (searchP1_group (c :: cs) g none h))
  · intro text g h1 h2
    cases text with
    | nil => exact Option.noConfusion h2
    | cons c cs =>
      unfold DetectionEngine.extract_stopover_code
      rw [if_neg (by simp)]
      unfold DetectionEngine.STOPOVER_PATTERNS
      rw [tryPatterns_cons_none _ _ _ h1]
      exact tryPatterns_cons_some _ _ _ _ h2
        (code_check_passes g (searchP2_group (c :: cs) g h2))
  · intro text g h1 h2 h3
    cases text with
    | nil => exact Option.noConfusion h3
    | cons c cs =>
      unfold DetectionEngine.extract_stopover_code
      rw [if_neg (by simp)]
      unfold DetectionEngine.STOPOVER_PATTERNS
      rw [tryPatterns_cons_none _ _ _ h1, tryPatterns_cons_none _ _ _ h2]
      exact tryPatterns_cons_some _ _ _ _ h3
        (code_check_passes g (searchP3_group (c :: cs) g h3))

/-- WITNESS for C1 (amended) at a concrete text: on `"[abj]-Bilan"` the first
pattern matches nowhere and the bracketed pattern wins with the uppercased
code. -/
theorem claim_C1_witness :
    DetectionEngine.extract_stopover_code (strOf "[abj]-Bilan") =
      some (pyUpper (strOf "abj")) :=
  claim_C1_amended.2.1 (strOf "[abj]-Bilan") (strOf "abj") (by decide) (by decide)

/-! Round-trip infrastructure for the recipients codec. -/

theorem dropWhile_cons_eq_self (p : Char → Bool) (c : Char) (l : Str)
    (h : List.dropWhile p (c :: l) = c :: l) : p c = false := by
  by_cases hp : p c = true
  · rw [List.dropWhile_cons, if_pos hp] at h
    have hlen : (List.dropWhile p l).length ≤ l.length :=
      (List.dropWhile_suffix p).length_le
    rw [h] at hlen
    simp at hlen
  · simpa using hp

theorem pyStrip_parts (e : Str) (h : pyStrip e = e) :
    List.dropWhile pySpace e = e ∧ List.dropWhile pySpace e.reverse = e.reverse := by
  have hd : List.dropWhile pySpace e = e := by
    have h1 : (List.dropWhile pySpace e) <:+ e := List.dropWhile_suffix pySpace
    apply h1.eq_of_length
    have h2 : (pyStrip e).length ≤ (List.dropWhile pySpace e).length := by
      unfold pyStrip
      have := (List.dropWhile_suffix
        (l := (List.dropWhile pySpace e).reverse) pySpace).length_le
      simpa using this
    have h3 : (List.dropWhile pySpace e).length ≤ e.length := h1.length_le
    rw [h] at h2
    omega
  refine ⟨hd, ?_⟩
  unfold pyStrip at h
  rw [hd] at h
  have h4 : List.dropWhile pySpace e.reverse = e.reverse := by
    have := congrArg List.reverse h
    simpa using this
  exact h4

theorem pyStrip_cons_append (c : Char) (ts e : Str) (hc : pySpace c = false)
    (he1 : pyStrip e = e) (he2 : e ≠ []) :
    pyStrip ((c :: ts) ++ e) = (c :: ts) ++ e := by
  obtain ⟨_, hrev⟩ := pyStrip_parts e he1
  unfold pyStrip
  rw [show ((c :: ts) ++ e) = c :: (ts ++ e) from rfl, List.dropWhile_cons, if_neg (by simp [hc])]
  rw [List.reverse_cons, List.reverse_append, List.append_assoc]
  cases herev : e.reverse with
  | nil => exact absurd (by simpa using congrArg List.reverse herev) he2
  | cons c' r' =>
    have hc' : pySpace c' = false := dropWhile_cons_eq_self pySpace c' r' (herev ▸ hrev)
    rw [show c' :: r' ++ (ts.reverse ++ [c]) = c' :: (r' ++ (ts.reverse ++ [c])) from rfl,
      List.dropWhile_cons, if_neg (by simp [hc'])]
    simp
    rw [← List.reverse_reverse e, herev]
    simp

theorem isPrefixOf_append_self (t e : Str) : t.isPrefixOf (t ++ e) = true := by
  induction t with
  | nil => cases e <;> rfl
  | cons a t ih => simp [List.isPrefixOf, ih]

theorem drop_length_append (t e : Str) : (t ++ e).drop t.length = e :=
  List.drop_left t e

theorem cc_not_prefixOf_bcc (e : Str) :
    StopoverEmailService.CC_TAG.isPrefixOf (StopoverEmailService.BCC_TAG ++ e) = false := by
  simp [StopoverEmailService.CC_TAG, StopoverEmailService.BCC_TAG, List.isPrefixOf]

theorem decode_cons_eq (raw : Str) (rest : List Str) :
    StopoverEmailService.decode_recipients (raw :: rest) =
      (let s := pyStrip raw
       let r := StopoverEmailService.decode_recipients rest
       if s = [] then r
       else if StopoverEmailService.CC_TAG.isPrefixOf s then
         let cc := pyStrip (s.drop StopoverEmailService.CC_TAG.length)
         if cc = [] then r else (r.1, cc :: r.2.1, r.2.2)
       else if StopoverEmailService.BCC_TAG.isPrefixOf s then
         let bcc := pyStrip (s.drop StopoverEmailService.BCC_TAG.length)
         if bcc = [] then r else (r.1, r.2.1, bcc :: r.2.2)
       else (s :: r.1, r.2.1, r.2.2)) := rfl

theorem decode_cons_plain (e : Str) (rest : List Str) (he : pyStrip e = e) (hne : e ≠ [])
    (hcc : StopoverEmailService.CC_TAG.isPrefixOf e = false)
    (hbcc : StopoverEmailService.BCC_TAG.isPrefixOf e = false) :
    StopoverEmailService.decode_recipients (e :: rest) =
      (e :: (StopoverEmailService.decode_recipients rest).1,
        (StopoverEmailService.decode_recipients rest).2.1,
        (StopoverEmailService.decode_recipients rest).2.2) := by
  rw [decode_cons_eq]
  dsimp only
  rw [he, if_neg hne, if_neg (by simp [hcc]), if_neg (by simp [hbcc])]

theorem decode_cons_cc (e : Str) (rest : List Str) (he : pyStrip e = e) (hne : e ≠ []) :
    StopoverEmailService.decode_recipients ((StopoverEmailService.CC_TAG ++ e) :: rest) =
      ((StopoverEmailService.decode_recipients rest).1,
        e :: (StopoverEmailService.decode_recipients rest).2.1,
        (StopoverEmailService.decode_recipients rest).2.2) := by
  have hstrip : pyStrip (StopoverEmailService.CC_TAG ++ e) = StopoverEmailService.CC_TAG ++ e :=
    pyStrip_cons_append '_' ['_', 'C', 'C', '_', '_', ':'] e (by decide) he hne
  rw [decode_cons_eq]
  dsimp only
  rw [hstrip]
  rw [if_neg (by simp [StopoverEmailService.CC_TAG]),
    if_pos (by simp [isPrefixOf_append_self])]
  rw [drop_length_append, he, if_neg hne]

theorem decode_cons_bcc (e : Str) (rest : List Str) (he : pyStrip e = e) (hne : e ≠ []) :
    StopoverEmailService.decode_recipients ((StopoverEmailService.BCC_TAG ++ e) :: rest) =
      ((StopoverEmailService.decode_recipients rest).1,
        (StopoverEmailService.decode_recipients rest).2.1,
        e :: (StopoverEmailService.decode_recipients rest).2.2) := by
  have hstrip : pyStrip (StopoverEmailService.BCC_TAG ++ e) =
      StopoverEmailService.BCC_TAG ++ e :=
    pyStrip_cons_append '_' ['_', 'B', 'C', 'C', '_', '_', ':'] e (by decide) he hne
  rw [decode_cons_eq]
  dsimp only
  rw [hstrip]
  rw [if_neg (by simp [StopoverEmailService.BCC_TAG]),
    if_neg (by simp [cc_not_prefixOf_bcc e]),
    if_pos (by simp [isPrefixOf_append_self])]
  rw [drop_length_append, he, if_neg hne]

theorem encode_cons_to (e : Str) (to_list cc_list bcc_list : List Str)
    (he : pyStrip e = e) (hne : e ≠ []) :
    StopoverEmailService.encode_recipients (e :: to_list) cc_list bcc_list =
      e :: StopoverEmailService.encode_recipients to_list cc_list bcc_list := by
  simp only [StopoverEmailService.encode_recipients, List.filterMap_cons, he]
  rw [if_neg hne]
  rfl

theorem encode_cons_cc (e : Str) (cc bcc : List Str) (he : pyStrip e = e) (hne : e ≠ []) :
    StopoverEmailService.encode_recipients [] (e :: cc) bcc =
      (StopoverEmailService.CC_TAG ++ e) ::
        StopoverEmailService.encode_recipients [] cc bcc := by
  simp only [StopoverEmailService.encode_recipients, List.filterMap_cons, he,
    List.filterMap_nil, List.nil_append]
  rw [if_neg hne]
  rfl

theorem encode_cons_bcc (e : Str) (bcc : List Str) (he : pyStrip e = e) (hne : e ≠ []) :
    StopoverEmailService.encode_recipients [] [] (e :: bcc) =
      (StopoverEmailService.BCC_TAG ++ e) ::
        StopoverEmailService.encode_recipients [] [] bcc := by
  simp only [StopoverEmailService.encode_recipients, List.filterMap_cons, he,
    List.filterMap_nil, List.nil_append]
  rw [if_neg hne]

theorem decode_encode_bcc (bcc : List Str) (h : ∀ e ∈ bcc, pyStrip e = e ∧ e ≠ []) :
    StopoverEmailService.decode_recipients (StopoverEmailService.encode_recipients [] [] bcc) =
      ([], [], bcc) := by
  induction bcc with
  | nil => rfl
  | cons e bs ih =>
    obtain ⟨he, hne⟩ := h e (List.mem_cons_self e bs)
    rw [encode_cons_bcc e bs he hne, decode_cons_bcc e _ he hne,
      ih (fun x hx => h x (List.mem_cons_of_mem e hx))]

theorem decode_encode_cc_bcc (cc bcc : List Str)
    (hcc : ∀ e ∈ cc, pyStrip e = e ∧ e ≠ [])
    (hbcc : ∀ e ∈ bcc, pyStrip e = e ∧ e ≠ []) :
    StopoverEmailService.decode_recipients (StopoverEmailService.encode_recipients [] cc bcc) =
      ([], cc, bcc) := by
  induction cc with
  | nil => exact decode_encode_bcc bcc hbcc
  | cons e cs ih =>
    obtain ⟨he, hne⟩ := hcc e (List.mem_cons_self e cs)
    rw [encode_cons_cc e cs bcc he hne, decode_cons_cc e _ he hne,
      ih (fun x hx => hcc x (List.mem_cons_of_mem e hx))]

/-- A well-formed address for the codec round-trip: non-empty, already
stripped, and not beginning with either sentinel tag. -/
def wf_address (e : Str) : Prop :=
  pyStrip e = e ∧ e ≠ [] ∧
    StopoverEmailService.CC_TAG.isPrefixOf e = false ∧
    StopoverEmailService.BCC_TAG.isPrefixOf e = false

instance wf_address_decidable (e : Str) : Decidable (wf_address e) := by
  unfold wf_address
  infer_instance

/-- COUNTEREXAMPLE for C2. The codec strips addresses: the To address
`" a@x.com"` does not begin with either reserved tag, yet decoding the
encoding returns `"a@x.com"`, not the original triple. -/
theorem claim_C2_counterexample :
    StopoverEmailService.CC_TAG.isPrefixOf (strOf " a@x.com") = false ∧
    StopoverEmailService.BCC_TAG.isPrefixOf (strOf " a@x.com") = false ∧
    StopoverEmailService.decode_recipients
        (StopoverEmailService.encode_recipients [strOf " a@x.com"] [] []) ≠
      ([strOf " a@x.com"], [], []) := by
  decide

/-- CLAIM C2 (amended). For all lists of addresses that are non-empty,
contain no leading or trailing whitespace, and do not begin with the
reserved tags, decoding the encoding returns the original triple with order
preserved within each bucket. -/
theorem claim_C2_amended (to_list cc_list bcc_list : List Str)
    (h : ∀ e ∈ to_list ++ cc_list ++ bcc_list, wf_address e) :
    StopoverEmailService.decode_recipients
        (StopoverEmailService.encode_recipients to_list cc_list bcc_list) =
      (to_list, cc_list, bcc_list) := by
  induction to_list with
  | nil =>
    refine decode_encode_cc_bcc cc_list bcc_list (fun x hx => ?_) (fun x hx => ?_)
    · obtain ⟨h1, h2, _, _⟩ := h x (by simp [hx])
      exact ⟨h1, h2⟩
    · obtain ⟨h1, h2, _, _⟩ := h x (by simp [hx])
      exact ⟨h1, h2⟩
  | cons e ts ih =>
    obtain ⟨h1, h2, h3, h4⟩ := h e (by simp)
    rw [encode_cons_to e ts cc_list bcc_list h1 h2, decode_cons_plain e _ h1 h2 h3 h4,
      ih (fun x hx => h x (by simp at hx ⊢; tauto))]

/-- WITNESS for C2 (amended) at concrete lists: one well-formed address per
bucket round-trips. -/
theorem claim_C2_witness :
    StopoverEmailService.decode_recipients
        (StopoverEmailService.encode_recipients
          [strOf "a@x.com"] [strOf "c@x.com"] [strOf "b@x.com"]) =
      ([strOf "a@x.com"], [strOf "c@x.com"], [strOf "b@x.com"]) :=
  claim_C2_amended [strOf "a@x.com"] [strOf "c@x.com"] [strOf "b@x.com"] (by decide)

/-! Round-trip of the sanitizer over the JSON image of a configuration. -/

theorem keys_append {V : Type} (a b : List (Str × V)) :
    keys (a ++ b) = keys a ++ keys b := by
  induction a with
  | nil => rfl
  | cons kv rest ih => simp [keys, ih]

theorem mem_keys_of_mem {V : Type} (d : List (Str × V)) (kv : Str × V) (h : kv ∈ d) :
    kv.1 ∈ keys d := by
  induction d with
  | nil => simp at h
  | cons kv0 rest ih =>
    rcases List.mem_cons.mp h with h' | h'
    · simp [keys, h']
    · exact List.mem_cons_of_mem _ (ih h')

theorem foldl_dset_self_aux {V : Type} (l : List (Str × V)) (h : (keys l).Nodup) :
    ∀ acc, (∀ kv ∈ l, kv.1 ∉ keys acc) →
      l.foldl (fun a kv => dset a kv.1 kv.2) acc = acc ++ l := by
  induction l with
  | nil => intro acc _; simp
  | cons kv rest ih =>
    intro acc hacc
    rw [show keys (kv :: rest) = kv.1 :: keys rest from rfl, List.nodup_cons] at h
    rw [List.foldl_cons,
      dset_eq_append_of_not_mem acc kv.1 kv.2 (hacc kv (List.mem_cons_self kv rest))]
    rw [ih h.2 (acc ++ [(kv.1, kv.2)]) ?_]
    · simp
    · intro kv' hkv' hmem
      rw [keys_append] at hmem
      rcases List.mem_append.mp hmem with hmem | hmem
      · exact hacc kv' (List.mem_cons_of_mem kv hkv') hmem
      · have : kv'.1 = kv.1 := by simpa [keys] using hmem
        exact h.1 (this ▸ mem_keys_of_mem rest kv' hkv')

theorem foldl_dset_self {V : Type} (l : List (Str × V)) (h : (keys l).Nodup) :
    l.foldl (fun a kv => dset a kv.1 kv.2) [] = l := by
  have := foldl_dset_self_aux l h [] (by simp [keys])
  simpa using this

theorem strListOfJson_map_str (v : List Str) : strListOfJson (v.map Json.str) = v := by
  induction v with
  | nil => rfl
  | cons x xs ih => simp [strListOfJson, List.filterMap_cons, strOrIntB, pyStr] at *; exact ih

theorem foldl_nodup_of_step {A V : Type} (step : List (Str × V) → A → List (Str × V))
    (hstep : ∀ acc a, (keys acc).Nodup → (keys (step acc a)).Nodup) (l : List A) :
    ∀ acc, (keys acc).Nodup → (keys (l.foldl step acc)).Nodup := by
  induction l with
  | nil => intro acc h; exact h
  | cons a rest ih =>
    intro acc h
    rw [List.foldl_cons]
    exact ih _ (hstep acc a h)

/-- Sanitizing never fails on the JSON image of a configuration (the version
entry is an integer), and the result is rfl-computable. -/
theorem sanitize_toJson_isSome (c : Config) :
    ∃ c', ConfigManager.sanitize_loaded_config (Config.toJson c) = some c' :=
  ⟨_, rfl⟩

/-- Any output of the sanitizer has duplicate-free mapping and last-sent
keys. -/
theorem sanitize_nodup (kvs : List (Str × Json)) (c : Config)
    (h : ConfigManager.sanitize_loaded_config kvs = some c) :
    (keys c.mappings).Nodup ∧ (keys c.last_sent).Nodup := by
  unfold ConfigManager.sanitize_loaded_config at h
  split at h
  · exact Option.noConfusion h
  · injection h with h'
    subst h'
    constructor
    · show (keys (match dget kvs (strOf "mappings") with
        | some (Json.obj kvs') =>
          kvs'.foldl (fun acc kv => dset acc kv.1 (emailsOfJson kv.2)) []
        | _ => [])).Nodup
      split
      · exact foldl_nodup_of_step _
          (fun acc kv hn => nodup_keys_dset acc kv.1 (emailsOfJson kv.2) hn) _ []
          (by simp [keys])
      · simp [keys]
    · show (keys (match dget kvs (strOf "last_sent") with
        | some (Json.obj kvs') =>
          kvs'.foldl
            (fun acc kv => match kv.2 with | Json.str v => dset acc kv.1 v | _ => acc) []
        | _ => [])).Nodup
      split
      · refine foldl_nodup_of_step _ (fun acc kv hn => ?_) _ [] (by simp [keys])
        cases kv.2 <;> first | exact hn | exact nodup_keys_dset _ _ _ hn
      · simp [keys]

/-- Sanitizing the JSON image of a configuration with duplicate-free dict
keys gives back exactly that configuration. -/
theorem sanitize_toJson (c : Config) (hm : (keys c.mappings).Nodup)
    (hl : (keys c.last_sent).Nodup) :
    ConfigManager.sanitize_loaded_config (Config.toJson c) = some c := by
  obtain ⟨ver, st, mp, tpl, ls⟩ := c
  obtain ⟨subj, bod⟩ := tpl
  have hred : ConfigManager.sanitize_loaded_config
      (Config.toJson ⟨ver, st, mp, (subj, bod), ls⟩) =
      some { version := ver
             stopovers := strListOfJson (st.map Json.str)
             mappings := (mp.map (fun kv => (kv.1, Json.arr (kv.2.map Json.str)))).foldl
               (fun acc kv => dset acc kv.1 (emailsOfJson kv.2)) []
             templates := (subj, bod)
             last_sent := (ls.map (fun kv => (kv.1, Json.str kv.2))).foldl
               (fun acc kv => match kv.2 with | Json.str v => dset acc kv.1 v | _ => acc)
               [] } := rfl
  rw [hred]
  have hmap : (mp.map (fun kv => (kv.1, Json.arr (kv.2.map Json.str)))).foldl
      (fun acc kv => dset acc kv.1 (emailsOfJson kv.2)) [] = mp := by
    simp only [List.foldl_map, emailsOfJson, strListOfJson_map_str]
    exact foldl_dset_self mp hm
  have hlast : (ls.map (fun kv => (kv.1, Json.str kv.2))).foldl
      (fun acc kv => match kv.2 with | Json.str v => dset acc kv.1 v | _ => acc) [] = ls := by
    rw [List.foldl_map]
    exact foldl_dset_self ls hl
  rw [hmap, hlast, strListOfJson_map_str st]

/-! Behaviour of `_load_or_migrate` needed for the idempotency claim. -/

theorem migrate_config_eq (d : ConfigManager.DiskOutcome) (fs : FS) :
    (ConfigManager.migrate d fs).config = ConfigManager.migrate_result_config fs := rfl

theorem migrate_ok_app_config (fs : FS) :
    (ConfigManager.migrate ConfigManager.DiskOutcome.ok fs).fs.app_config =
      some (some (Json.obj (Config.toJson (ConfigManager.migrate_result_config fs)))) := rfl

theorem migrate_result_sanitized (fs : FS) :
    ConfigManager.sanitize_loaded_config (Config.toJson (ConfigManager.migrated_config fs)) =
      some (ConfigManager.migrate_result_config fs) := by
  obtain ⟨c', hs⟩ := sanitize_toJson_isSome (ConfigManager.migrated_config fs)
  unfold ConfigManager.migrate_result_config
  rw [hs]

theorem migrate_result_nodup (fs : FS) :
    (keys (ConfigManager.migrate_result_config fs).mappings).Nodup ∧
      (keys (ConfigManager.migrate_result_config fs).last_sent).Nodup :=
  sanitize_nodup _ _ (migrate_result_sanitized fs)

theorem load_or_migrate_eq (d : ConfigManager.DiskOutcome) (fs : FS) :
    ConfigManager.load_or_migrate d fs =
      (match fs.app_config with
       | some (some (Json.obj kvs)) =>
         (match ConfigManager.sanitize_loaded_config kvs with
          | some c => { config := c, legacyAccess := false, fs := fs }
          | none => ConfigManager.migrate d fs)
       | some (some _) => ConfigManager.migrate d fs
       | some none => ConfigManager.migrate d fs
       | none => ConfigManager.migrate d fs) := rfl

theorem second_run_after_migrate (fs : FS) (d' : ConfigManager.DiskOutcome) :
    ConfigManager.load_or_migrate d'
        (ConfigManager.migrate ConfigManager.DiskOutcome.ok fs).fs =
      { config := (ConfigManager.migrate ConfigManager.DiskOutcome.ok fs).config
        legacyAccess := false
        fs := (ConfigManager.migrate ConfigManager.DiskOutcome.ok fs).fs } := by
  have hnd := migrate_result_nodup fs
  have hro := sanitize_toJson (ConfigManager.migrate_result_config fs) hnd.1 hnd.2
  rw [load_or_migrate_eq, migrate_ok_app_config fs]
  dsimp only
  rw [hro]
  rfl

/-- File system exhibiting the C9 counterexample: the unified file exists and
parses as a JSON object, but its `version` entry is `null`, so
`int(cfg.get("version", 1))` raises and the routine falls back to migration;
a legacy mappings fragment is present. -/
def fsX : FS :=
  { app_config := some (some (Json.obj [(strOf "version", Json.null)]))
    legacy_stopover_emails_pkg := none
    legacy_stopover_emails_root := none
    legacy_mappings_pkg :=
      some (Json.obj [(strOf "ABJ", Json.arr [Json.str (strOf "a@x.com")])])
    legacy_mappings_root := none
    legacy_templates_pkg := none
    legacy_templates_root := none
    legacy_email_template_txt := none
    legacy_config_pkg := none
    legacy_config_root := none }

/-- COUNTEREXAMPLE for C9. On a unified file that exists and parses as a
JSON object whose `version` value is `null`, sanitizing raises, so the
routine does consult the legacy fragments and the loaded configuration comes
from them, contradicting the claim for this input. -/
theorem claim_C9_counterexample :
    (ConfigManager.load_or_migrate ConfigManager.DiskOutcome.ok fsX).legacyAccess = true ∧
    dget (ConfigManager.load_or_migrate ConfigManager.DiskOutcome.ok fsX).config.mappings
        (strOf "ABJ") =
      some [strOf "a@x.com"] := by
  constructor
  · rfl
  · rfl

/-- CLAIM C9 (amended). If the unified file exists, parses as a JSON object
and sanitizing it does not raise, the routine performs no legacy access and
leaves the configuration equal to the sanitized content; and running the
routine twice in a row (the first time with a successful disk write) leaves
the configuration unchanged with no legacy access on the second run. -/
theorem claim_C9_amended :
    (∀ d fs kvs c, fs.app_config = some (some (Json.obj kvs)) →
      ConfigManager.sanitize_loaded_config kvs = some c →
      ConfigManager.load_or_migrate d fs =
        { config := c, legacyAccess := false, fs := fs }) ∧
    (∀ fs d',
      (ConfigManager.load_or_migrate d'
          (ConfigManager.load_or_migrate ConfigManager.DiskOutcome.ok fs).fs).config =
        (ConfigManager.load_or_migrate ConfigManager.DiskOutcome.ok fs).config ∧
      (ConfigManager.load_or_migrate d'
          (ConfigManager.load_or_migrate ConfigManager.DiskOutcome.ok fs).fs).legacyAccess =
        false) := by
  constructor
  · intro d fs kvs c h1 h2
    rw [load_or_migrate_eq, h1]
    dsimp only
    rw [h2]
  · intro fs d'
    rcases hac : fs.app_config with _ | o
    · have h1 : ConfigManager.load_or_migrate ConfigManager.DiskOutcome.ok fs =
          ConfigManager.migrate ConfigManager.DiskOutcome.ok fs := by
        rw [load_or_migrate_eq, hac]
      rw [h1, second_run_after_migrate fs d']
      exact ⟨rfl, rfl⟩
    · rcases o with _ | j
      · have h1 : ConfigManager.load_or_migrate ConfigManager.DiskOutcome.ok fs =
            ConfigManager.migrate ConfigManager.DiskOutcome.ok fs := by
          rw [load_or_migrate_eq, hac]
        rw [h1, second_run_after_migrate fs d']
        exact ⟨rfl, rfl⟩
      · cases j
        case obj kvs =>
          cases hs : ConfigManager.sanitize_loaded_config kvs with
          | none =>
            have h1 : ConfigManager.load_or_migrate ConfigManager.DiskOutcome.ok fs =
                ConfigManager.migrate ConfigManager.DiskOutcome.ok fs := by
              rw [load_or_migrate_eq, hac]
              dsimp only
              rw [hs]
            rw [h1, second_run_after_migrate fs d']
            exact ⟨rfl, rfl⟩
          | some c =>
            have h1 : ConfigManager.load_or_migrate ConfigManager.DiskOutcome.ok fs =
                { config := c, legacyAccess := false, fs := fs } := by
              rw [load_or_migrate_eq, hac]
              dsimp only
              rw [hs]
            have h2 : ConfigManager.load_or_migrate d' fs =
                { config := c, legacyAccess := false, fs := fs } := by
              rw [load_or_migrate_eq, hac]
              dsimp only
              rw [hs]
            rw [h1]
            dsimp only
            rw [h2]
            exact ⟨rfl, rfl⟩
        all_goals
          have h1 : ConfigManager.load_or_migrate ConfigManager.DiskOutcome.ok fs =
              ConfigManager.migrate ConfigManager.DiskOutcome.ok fs := by
            rw [load_or_migrate_eq, hac]
          rw [h1, second_run_after_migrate fs d']
          exact ⟨rfl, rfl⟩

/-- Unified file content used by the C9 witness. -/
def kvs0 : List (Str × Json) := [(strOf "version", Json.num 7)]

/-- Configuration the sanitizer produces from `kvs0`. -/
def c0 : Config :=
  { version := 7, stopovers := [], mappings := [], templates := ([], []), last_sent := [] }

/-- File system used by the C9 witness: a healthy unified file, no legacy
fragments. -/
def fs0 : FS :=
  { app_config := some (some (Json.obj kvs0))
    legacy_stopover_emails_pkg := none
    legacy_stopover_emails_root := none
    legacy_mappings_pkg := none
    legacy_mappings_root := none
    legacy_templates_pkg := none
    legacy_templates_root := none
    legacy_email_template_txt := none
    legacy_config_pkg := none
    legacy_config_root := none }

/-- WITNESS for C9 (amended) at a concrete file system: a healthy unified
file is used as-is, with no legacy access. -/
theorem claim_C9_witness :
    ConfigManager.load_or_migrate ConfigManager.DiskOutcome.ok fs0 =
      { config := c0, legacyAccess := false, fs := fs0 } :=
  claim_C9_amended.1 ConfigManager.DiskOutcome.ok fs0 kvs0 c0 rfl rfl
